import Mathlib

/-!
Shallow embedding of the core logic of the Data-Web-Visualization repository
(src/BulkExporter.py, src/GroupSelector.py, src/config.py).

Conventions of the embedding:
* UTC instants are represented by their epoch-millisecond coordinate as an
  `Int` (the Python code converts `ts_ms / 1000.0` to a `datetime`; that map
  is an order isomorphism, so timestamps keep their millisecond coordinate).
* Python floats that only carry payload data (prices, market caps, volumes)
  are modelled as exact rationals `ℚ`.
* Database tables are modelled as lists of rows; `INSERT .. ON CONFLICT DO
  NOTHING` becomes an explicit conditional append.
* Network fetches are modelled by oracle functions `Int → Except String Payload`
  mapping the requested day window to either a payload or a raised exception
  (`Except.error` carries the exception text `str(ex)`).
-/

namespace CryptoETL

/-! ### config.py -/

/-- config.py: `VS_CURRENCY = "usd"`. -/
def VS_CURRENCY : String := "usd"

/-- config.py: `BULK_DAYS_BACK = 365`. -/
def BULK_DAYS_BACK : Int := 365

/-- config.py: `HOURLY_MAX_DAYS_BACK = 90`. -/
def HOURLY_MAX_DAYS_BACK : Int := 90

/-- config.py: `ENABLE_HOURLY = True`. -/
def ENABLE_HOURLY : Bool := true

/-- config.py: `HOURLY_MIN_AGE_HOURS = 2.5` (exact as a rational). -/
def HOURLY_MIN_AGE_HOURS : ℚ := 5 / 2

/-- config.py: `DAILY_MIN_AGE_HOURS = 23.0` (exact as a rational). -/
def DAILY_MIN_AGE_HOURS : ℚ := 23

/-! ### BulkExporter.py — row normalizer -/

/-- A raw `/market_chart` payload: three sequences of
`(epoch-ms timestamp, value)` pairs.  The price value is fed to `float(...)`
unconditionally; market cap and volume may be JSON `null` (`Option`). -/
structure Payload where
  prices : List (Int × ℚ)
  market_caps : List (Int × Option ℚ)
  total_volumes : List (Int × Option ℚ)
deriving DecidableEq

/-- A normalized price row as built by `_parse_market_chart_to_rows`:
`observed_at` is the UTC instant (epoch milliseconds) taken from the price
entry's timestamp. -/
structure Row where
  observed_at : Int
  price : ℚ
  market_cap_usd : Option ℚ
  volume_24h_usd : Option ℚ
deriving DecidableEq

/-- The three-way positional `zip` of BulkExporter.py line 74: pairs are
consumed positionally up to the shortest sequence; the timestamps of the
market-cap and volume entries are ignored. -/
def zip3Rows : List (Int × ℚ) → List (Int × Option ℚ) → List (Int × Option ℚ) → List Row
  | (ts_p, price) :: ps, (_, mc) :: ms, (_, vol) :: vs =>
      ⟨ts_p, price, mc, vol⟩ :: zip3Rows ps ms vs
  | _, _, _ => []

/-- Boolean ascending order on rows by `observed_at`
(`rows.sort(key=lambda r: r["observed_at"])`). -/
def rowLe (a b : Row) : Bool := a.observed_at ≤ b.observed_at

/-- BulkExporter.py `_parse_market_chart_to_rows`: zip the three sequences
positionally into rows and sort ascending by `observed_at`. -/
def parse_market_chart_to_rows (payload : Payload) : List Row :=
  (zip3Rows payload.prices payload.market_caps payload.total_volumes).mergeSort rowLe

/-- UTC calendar date of a row: `datetime.fromtimestamp(ms/1000, utc).date()`
is determined by the floor of the epoch-ms coordinate over a day's
milliseconds. -/
def dateOf (r : Row) : Int := r.observed_at.fdiv 86400000

/-- One `OrderedDict` assignment `by_date[d] = r`: if the key is present its
value is replaced in place, otherwise the pair is appended. -/
def odInsert (d : Int) (r : Row) : List (Int × Row) → List (Int × Row)
  | [] => [(d, r)]
  | (d₀, r₀) :: rest => if d₀ = d then (d, r) :: rest else (d₀, r₀) :: odInsert d r rest

/-- The `by_date` OrderedDict of `fetch_daily_series` (lines 99-102): fold the
rows left to right, the last row for each date winning. -/
def byDate (rows : List Row) : List (Int × Row) :=
  rows.foldl (fun acc r => odInsert (dateOf r) r acc) []

/-- The pure (post-fetch) part of BulkExporter.py `fetch_daily_series`:
normalize the payload, collapse to one row per UTC calendar date (last point
wins) and sort ascending by `observed_at`. -/
def daily_rows_of_payload (payload : Payload) : List Row :=
  let rows := parse_market_chart_to_rows payload
  let daily_rows := (byDate rows).map Prod.snd
  daily_rows.mergeSort rowLe

/-- BulkExporter.py `fetch_daily_series`: clamp the window to
`[1, BULK_DAYS_BACK]`, fetch the raw payload (oracle `fetchRaw`, which may
raise) and normalize with the daily collapse. -/
def fetch_daily_series (fetchRaw : Int → Except String Payload) (days : Int) :
    Except String (List Row) :=
  let days := max 1 (min days BULK_DAYS_BACK)
  (fetchRaw days).map daily_rows_of_payload

/-- BulkExporter.py `fetch_hourly_series`: clamp the window to
`[1, HOURLY_MAX_DAYS_BACK]`, fetch and normalize without collapsing. -/
def fetch_hourly_series (fetchRaw : Int → Except String Payload) (days : Int) :
    Except String (List Row) :=
  let days := max 1 (min days HOURLY_MAX_DAYS_BACK)
  (fetchRaw days).map parse_market_chart_to_rows

/-! ### BulkExporter.py — freshness evaluator -/

/-- BulkExporter.py `compute_days_to_pull_generic` with the impure
`datetime.now(utc)` read passed explicitly (`now`, epoch ms).  `delta_days`
is Python's `timedelta.days`, i.e. the floor of the elapsed milliseconds over
a day's milliseconds. -/
def compute_days_to_pull_generic (last_ts : Option Int) (now : Int) (max_days : Int) : Int :=
  match last_ts with
  | none => max_days
  | some ts =>
      let delta_days := (now - ts).fdiv 86400000
      if delta_days ≥ max_days then max_days
      else min max_days (max 1 (delta_days + 2))

/-- BulkExporter.py `compute_daily_days_to_pull`. -/
def compute_daily_days_to_pull (last_daily_ts : Option Int) (now : Int) : Int :=
  compute_days_to_pull_generic last_daily_ts now BULK_DAYS_BACK

/-- BulkExporter.py `compute_hourly_days_to_pull`. -/
def compute_hourly_days_to_pull (last_hourly_ts : Option Int) (now : Int) : Int :=
  compute_days_to_pull_generic last_hourly_ts now HOURLY_MAX_DAYS_BACK

/-- Age in hours as computed by the Python code:
`(now - last_ts).total_seconds() / 3600.0`, with instants in epoch ms. -/
def ageHours (now ts : Int) : ℚ := ((now - ts : Int) : ℚ) / 3600000

/-- BulkExporter.py `should_run_hourly`. -/
def should_run_hourly (last_hourly_ts : Option Int) (now : Int) : Bool :=
  match last_hourly_ts with
  | none => true
  | some ts => ageHours now ts ≥ HOURLY_MIN_AGE_HOURS

/-- BulkExporter.py `should_run_daily`. -/
def should_run_daily (last_daily_ts : Option Int) (now : Int) : Bool :=
  match last_daily_ts with
  | none => true
  | some ts => ageHours now ts ≥ DAILY_MIN_AGE_HOURS

/-! ### BulkExporter.py — price store -/

/-- Asset ids (`crypto_asset.id`, a UUID in the schema) are modelled as
naturals. -/
abbrev AssetId : Type := Nat

/-- A stored price row of `crypto_asset_price_daily` / `_hourly`. -/
structure PriceRow where
  asset_id : AssetId
  observed_at : Int
  currency_code : String
  price : ℚ
  market_cap_usd : Option ℚ
  volume_24h_usd : Option ℚ
deriving DecidableEq

/-- Key equality for the `UNIQUE (asset_id, observed_at, currency_code)`
constraint. -/
def sameKey (a b : PriceRow) : Bool :=
  a.asset_id = b.asset_id ∧ a.observed_at = b.observed_at ∧ a.currency_code = b.currency_code

/-- One `INSERT .. ON CONFLICT (asset_id, observed_at, currency_code) DO
NOTHING`: append the row unless a row with the same key is already stored. -/
def insertRow (t : List PriceRow) (r : PriceRow) : List PriceRow :=
  if t.any (fun x => sameKey x r) then t else t ++ [r]

/-- The batched insert (`conn.execute(insert_sql, [...])`): rows are inserted
one after the other, each skipped on conflict. -/
def insertRows (t : List PriceRow) (rs : List PriceRow) : List PriceRow :=
  rs.foldl insertRow t

/-- The stored values under a key `(asset_id, observed_at, currency_code)`,
read through the uniqueness constraint (first matching row). -/
def lookupKey (t : List PriceRow) (k : PriceRow) : Option PriceRow :=
  t.find? (fun x => sameKey x k)

/-- The guarded watermark `UPDATE` of BulkExporter.py lines 265-270/274-279:
set the watermark to `ts` only when it is NULL or strictly smaller. -/
def advanceWatermark (current : Option Int) (ts : Int) : Option Int :=
  match current with
  | none => some ts
  | some c => if c < ts then some ts else some c

/-- The database state touched by the bulk importer: the two price tables and
the two per-asset watermark columns of `crypto_asset`. -/
structure Store where
  daily_table : List PriceRow
  hourly_table : List PriceRow
  last_daily : AssetId → Option Int
  last_hourly : AssetId → Option Int

/-- The per-asset result dict returned by
`bulk_insert_prices_and_update_last_observed`. -/
structure InsertCounts where
  daily_rows : Nat
  hourly_rows : Nat
  hourly_error : Option String
deriving DecidableEq

/-- Turn a fetched row into a stored price row for `asset_id`
(`currency_code = VS_CURRENCY.upper()`). -/
def toPriceRow (aid : AssetId) (r : Row) : PriceRow :=
  ⟨aid, r.observed_at, VS_CURRENCY.toUpper, r.price, r.market_cap_usd, r.volume_24h_usd⟩

/-- BulkExporter.py `bulk_insert_prices_and_update_last_observed`.

The two network fetches are oracles (`dailyRaw`, `hourlyRaw`).  A daily fetch
exception escapes the function (`Except.error`), rolling back the enclosing
transaction, so the state is returned unchanged by the caller; an exception
in the hourly step (fetch or insert — a single failure channel here) is
caught (lines 259-261), recorded as `hourly_error` and resets
`hourly_rows = []`.  The watermark updates use the last element of the sorted
row lists (`rows[-1]`). -/
def bulk_insert_prices_and_update_last_observed
    (dailyRaw hourlyRaw : Int → Except String Payload)
    (st : Store) (aid : AssetId)
    (days_for_daily days_for_hourly : Option Int) :
    Except String (Store × InsertCounts) := do
  -- ---- Fetch daily ----
  let daily_rows ← match days_for_daily with
    | none => pure []
    | some d => fetch_daily_series dailyRaw d
  let st := if daily_rows.isEmpty then st else
    { st with daily_table := insertRows st.daily_table (daily_rows.map (toPriceRow aid)) }
  -- ---- Fetch hourly (optional) ----
  let (hourly_rows, hourly_error, st) :=
    match days_for_hourly with
    | some d =>
        if ENABLE_HOURLY then
          match fetch_hourly_series hourlyRaw d with
          | .ok rs =>
              (rs, none,
                if rs.isEmpty then st else
                  { st with hourly_table := insertRows st.hourly_table (rs.map (toPriceRow aid)) })
          | .error ex => ([], some ex, st)
        else ([], none, st)
    | none => ([], none, st)
  -- ---- Watermarks ----
  let st := match daily_rows.getLast? with
    | some r => { st with last_daily := fun a =>
        if a = aid then advanceWatermark (st.last_daily aid) r.observed_at else st.last_daily a }
    | none => st
  let st := match hourly_rows.getLast? with
    | some r => { st with last_hourly := fun a =>
        if a = aid then advanceWatermark (st.last_hourly aid) r.observed_at else st.last_hourly a }
    | none => st
  pure (st, ⟨daily_rows.length, hourly_rows.length, hourly_error⟩)

/-! ### BulkExporter.py — run_bulk_import -/

/-- An active asset row as read by `get_active_assets` (the fields the loop
uses; the watermarks live in `Store.last_daily` / `Store.last_hourly`). -/
structure Asset where
  id : AssetId
  coingecko_id : String
  symbol : String
  name : String

/-- The run summary dict of `run_bulk_import` (`per_asset_rows` and `errors`
are dicts keyed by `coingecko_id`; modelled as association lists in insertion
order). -/
structure Summary where
  asset_count : Nat
  per_asset_rows : List (String × InsertCounts)
  errors : List (String × String)

/-- Outcome of a run: final database state, the summary, and the status
string written to `job_run_log`. -/
structure RunResult where
  store : Store
  summary : Summary
  status : String

/-- One iteration of the per-asset loop of `run_bulk_import` (lines 337-378):
freshness decisions, then the guarded ingestion; an exception escaping
`bulk_insert_prices_and_update_last_observed` is caught, recorded in
`summary["errors"]`, and the transaction is rolled back (state unchanged). -/
def process_asset (dailyRaw hourlyRaw : String → Int → Except String Payload)
    (now : Int) (acc : Store × Summary) (asset : Asset) : Store × Summary :=
  let st := acc.1
  let summ := acc.2
  let last_daily := st.last_daily asset.id
  let last_hourly := st.last_hourly asset.id
  let run_daily := should_run_daily last_daily now
  let run_hourly := ENABLE_HOURLY && should_run_hourly last_hourly now
  if !run_daily && !run_hourly then acc
  else
    let days_daily := if run_daily then some (compute_daily_days_to_pull last_daily now) else none
    let days_hourly := if run_hourly then some (compute_hourly_days_to_pull last_hourly now) else none
    match bulk_insert_prices_and_update_last_observed
        (dailyRaw asset.coingecko_id) (hourlyRaw asset.coingecko_id)
        st asset.id days_daily days_hourly with
    | .ok (st', counts) =>
        (st', { summ with per_asset_rows := summ.per_asset_rows ++ [(asset.coingecko_id, counts)] })
    | .error e =>
        (st, { summ with errors := summ.errors ++ [(asset.coingecko_id, e)] })

/-- BulkExporter.py `run_bulk_import` (configuration loading aside): process
the active assets sequentially and record a run status of `"success"` when
`summary["errors"]` is empty, `"partial_success"` otherwise.  The impure
`datetime.now(utc)` reads are passed as one explicit `now`. -/
def run_bulk_import (dailyRaw hourlyRaw : String → Int → Except String Payload)
    (now : Int) (assets : List Asset) (st0 : Store) : RunResult :=
  if assets.isEmpty then ⟨st0, ⟨0, [], []⟩, "success"⟩
  else
    let init : Store × Summary := (st0, ⟨assets.length, [], []⟩)
    let out := assets.foldl (process_asset dailyRaw hourlyRaw now) init
    let status := if out.2.errors.isEmpty then "success" else "partial_success"
    ⟨out.1, out.2, status⟩

/-! ### GroupSelector.py -/

/-- A market entry returned by `/coins/markets`: `market_cap` is `none` when
missing or non-numeric (`safe_mcap` treats both as `0`). -/
structure Coin where
  id : String
  symbol : String
  name : String
  market_cap : Option ℚ
deriving DecidableEq

/-- GroupSelector.py `safe_mcap`: the market cap when it is a number, else 0. -/
def safe_mcap (coin_row : Coin) : ℚ :=
  match coin_row.market_cap with
  | some mc => mc
  | none => 0

/-- Descending comparison by `safe_mcap`
(`sorted(key=safe_mcap, reverse=True)`, a stable descending sort). -/
def mcapGe (a b : Coin) : Bool := safe_mcap b ≤ safe_mcap a

/-- `sorted(coins, key=safe_mcap, reverse=True)`. -/
def sortByMcapDesc (coins : List Coin) : List Coin := coins.mergeSort mcapGe

/-- The `markets_by_id` dict of `run_group_selector` line 259
(`{c["id"]: c for c in global_markets}`, last entry winning on duplicate
ids), looked up at one id. -/
def markets_by_id_get (global_markets : List Coin) (cid : String) : Option Coin :=
  global_markets.reverse.find? (fun c => c.id = cid)

/-- GroupSelector.py `run_group_selector`, step 3 (lines 266-287): build the
MEME_TOP5 rows from the category candidates, enforcing the DOGE rule — take
the top 5 by market cap; if `"dogecoin"` is not among their ids, look it up
first in the sorted candidates, then fall back to the global markets dict,
and append it when found. -/
def select_meme_rows (global_markets meme_candidates₀ : List Coin) : List Coin :=
  let meme_candidates := sortByMcapDesc meme_candidates₀
  let base_top := meme_candidates.take 5
  let base_ids := base_top.map Coin.id
  if "dogecoin" ∈ base_ids then base_top
  else
    let doge_row := match meme_candidates.find? (fun c => c.id = "dogecoin") with
      | some r => some r
      | none => markets_by_id_get global_markets "dogecoin"
    match doge_row with
    | some r => if r.id ∉ base_ids then base_top ++ [r] else base_top
    | none => base_top

/-- A member record of `new_member_data` as built in `run_group_selector`
step 7: `{"asset_id": ..., "market_cap": safe_mcap(row), "rank": rank}`. -/
structure MemberData where
  asset_id : AssetId
  market_cap : ℚ
  rank : Nat
deriving DecidableEq

/-- A row of `crypto_asset_group_history` as inserted by
`record_membership_change` (LEFT events omit market cap and rank). -/
structure Event where
  asset_id : AssetId
  group_id : Nat
  event_type : String
  market_cap_usd : Option ℚ
  rank_in_group : Option Nat
deriving DecidableEq

/-- GroupSelector.py `track_group_changes`: the list of history events
inserted for one group.  `old_members` is a Python set, modelled as a list
(iteration order of a set is unspecified; the list order stands in for it).
`left = old − new` emits LEFT events without market cap or rank;
`joined = new − old` emits, per entry of `new_member_data` whose asset
joined, a JOINED event with that entry's market cap and rank. -/
def track_group_changes (group_id : Nat) (old_members : List AssetId)
    (new_member_data : List MemberData) : List Event :=
  let new_members := new_member_data.map MemberData.asset_id
  let left_members := old_members.filter (fun a => a ∉ new_members)
  let leftEvents := left_members.map (fun a =>
    Event.mk a group_id "LEFT" none none)
  let joined_members := new_members.filter (fun a => a ∉ old_members)
  let joinedEvents := (new_member_data.filter (fun m => m.asset_id ∈ joined_members)).map
    (fun m => Event.mk m.asset_id group_id "JOINED" (some m.market_cap) (some m.rank))
  leftEvents ++ joinedEvents

/-! ## Claims -/

/-- C4: for every nullable `last_observed` and every `max_lookback_days ≥ 1`,
`days_to_pull` returns `max_lookback_days` when `last_observed` is absent or
its age in whole days is ≥ `max_lookback_days`, and otherwise
`min(max_lookback_days, max(1, age_in_days + 2))`; the result always lies in
`[1, max_lookback_days]`. -/
theorem days_to_pull_formula_and_bounds (last : Option Int) (now maxd : Int)
    (hmax : 1 ≤ maxd) :
    (last = none → compute_days_to_pull_generic last now maxd = maxd) ∧
    (∀ ts, last = some ts →
      (maxd ≤ (now - ts).fdiv 86400000 →
        compute_days_to_pull_generic last now maxd = maxd) ∧
      ((now - ts).fdiv 86400000 < maxd →
        compute_days_to_pull_generic last now maxd
          = min maxd (max 1 ((now - ts).fdiv 86400000 + 2)))) ∧
    1 ≤ compute_days_to_pull_generic last now maxd ∧
    compute_days_to_pull_generic last now maxd ≤ maxd := by
  refine ⟨?_, ?_, ?_⟩
  · rintro rfl; rfl
  · rintro ts rfl
    constructor
    · intro h
      simp only [compute_days_to_pull_generic]
      rw [if_pos (by exact h)]
    · intro h
      simp only [compute_days_to_pull_generic]
      rw [if_neg (by omega)]
  · cases last with
    | none => simp only [compute_days_to_pull_generic]; omega
    | some ts =>
      simp only [compute_days_to_pull_generic]
      by_cases h : (now - ts).fdiv 86400000 ≥ maxd
      · rw [if_pos h]; omega
      · rw [if_neg h]
        constructor
        · exact le_min hmax (le_max_left 1 _)
        · exact min_le_left _ _

/-- Witness for C4, covering the claim's concrete cases: `None` yields the
cap, age 10 days with cap 365 yields 12, age 400 days with cap 365 yields
365, and the bounds hold there. -/
theorem days_to_pull_formula_and_bounds_witness :
    compute_days_to_pull_generic none 0 365 = 365 ∧
    compute_days_to_pull_generic (some 0) (10 * 86400000) 365 = 12 ∧
    compute_days_to_pull_generic (some 0) (400 * 86400000) 365 = 365 ∧
    1 ≤ compute_days_to_pull_generic (some 0) (400 * 86400000) 365 := by
  refine ⟨?_, ?_, ?_, ?_⟩
  · exact (days_to_pull_formula_and_bounds none 0 365 (by decide)).1 rfl
  · have h := (((days_to_pull_formula_and_bounds (some 0) (10 * 86400000) 365
      (by decide)).2.1 0 rfl).2 (by decide))
    rw [h]; decide
  · exact ((days_to_pull_formula_and_bounds (some 0) (400 * 86400000) 365
      (by decide)).2.1 0 rfl).1 (by decide)
  · exact (days_to_pull_formula_and_bounds (some 0) (400 * 86400000) 365
      (by decide)).2.2.1

/-- C8: `should_run` (for each grain) is true iff `last_observed` is absent or
the age in hours is at least the grain's `min_age_hours` threshold; hence it
is false for ages strictly below the threshold and true at exactly the
threshold. -/
theorem should_run_age_threshold (last : Option Int) (now : Int) :
    (should_run_daily last now = true ↔
      last = none ∨ ∃ ts, last = some ts ∧ DAILY_MIN_AGE_HOURS ≤ ageHours now ts) ∧
    (should_run_hourly last now = true ↔
      last = none ∨ ∃ ts, last = some ts ∧ HOURLY_MIN_AGE_HOURS ≤ ageHours now ts) := by
  constructor
  · cases last with
    | none => simp [should_run_daily]
    | some ts => simp [should_run_daily, ge_iff_le]
  · cases last with
    | none => simp [should_run_hourly]
    | some ts => simp [should_run_hourly, ge_iff_le]

/-- Witness for C8 at the boundary: with `DAILY_MIN_AGE_HOURS = 23` the daily
grain runs at exactly 23 hours of age and not one millisecond earlier, and
the hourly grain runs at exactly 2.5 hours of age. -/
theorem should_run_age_threshold_witness :
    should_run_daily (some 0) (23 * 3600000) = true ∧
    should_run_daily (some 0) (23 * 3600000 - 1) = false ∧
    should_run_hourly (some 0) (9000000) = true ∧
    should_run_hourly (some 0) (9000000 - 1) = false := by
  refine ⟨?_, ?_, ?_, ?_⟩
  · exact (should_run_age_threshold (some 0) (23 * 3600000)).1.mpr
      (Or.inr ⟨0, rfl, by norm_num [ageHours, DAILY_MIN_AGE_HOURS]⟩)
  · have h := (should_run_age_threshold (some 0) (23 * 3600000 - 1)).1
    by_contra hb
    rcases h.mp (by revert hb; cases should_run_daily (some 0) (23 * 3600000 - 1) <;> simp) with
      hn | ⟨ts, hts, hage⟩
    · exact Option.noConfusion hn
    · rw [show ts = 0 from (Option.some.injEq _ _ ▸ hts).symm] at hage
      norm_num [ageHours, DAILY_MIN_AGE_HOURS] at hage
  · exact (should_run_age_threshold (some 0) 9000000).2.mpr
      (Or.inr ⟨0, rfl, by norm_num [ageHours, HOURLY_MIN_AGE_HOURS]⟩)
  · have h := (should_run_age_threshold (some 0) (9000000 - 1)).2
    by_contra hb
    rcases h.mp (by revert hb; cases should_run_hourly (some 0) (9000000 - 1) <;> simp) with
      hn | ⟨ts, hts, hage⟩
    · exact Option.noConfusion hn
    · rw [show ts = 0 from (Option.some.injEq _ _ ▸ hts).symm] at hage
      norm_num [ageHours, HOURLY_MIN_AGE_HOURS] at hage

/-! Helper lemmas about the insert-or-skip store. -/

theorem insertRows_eq_append (rs : List PriceRow) :
    ∀ t, ∃ ex, insertRows t rs = t ++ ex := by
  induction rs with
  | nil => exact fun t => ⟨[], by simp [insertRows]⟩
  | cons r rs ih =>
    intro t
    rcases ih (insertRow t r) with ⟨ex, hex⟩
    by_cases hk : t.any (fun x => sameKey x r) = true
    · refine ⟨ex, ?_⟩
      simp only [insertRows, List.foldl_cons] at hex ⊢
      rw [show insertRow t r = t from by simp [insertRow, hk]] at hex ⊢
      exact hex
    · refine ⟨r :: ex, ?_⟩
      simp only [insertRows, List.foldl_cons] at hex ⊢
      rw [show insertRow t r = t ++ [r] from by simp [insertRow, hk]] at hex ⊢
      simpa using hex

theorem sameKey_refl (r : PriceRow) : sameKey r r = true := by
  simp [sameKey]

theorem any_sameKey_insertRow_self (t : List PriceRow) (r : PriceRow) :
    (insertRow t r).any (fun x => sameKey x r) = true := by
  by_cases hk : t.any (fun x => sameKey x r) = true
  · simp [insertRow, hk]
  · simp [insertRow, hk, sameKey_refl]

theorem any_sameKey_insertRow_mono (t : List PriceRow) (r s : PriceRow)
    (h : t.any (fun x => sameKey x r) = true) :
    (insertRow t s).any (fun x => sameKey x r) = true := by
  by_cases hk : t.any (fun x => sameKey x s) = true
  · simpa [insertRow, hk] using h
  · rw [show insertRow t s = t ++ [s] from by simp [insertRow, hk]]
    simp [List.any_append, h]

theorem any_sameKey_insertRows_mono (rs : List PriceRow) :
    ∀ t r, t.any (fun x => sameKey x r) = true →
      (insertRows t rs).any (fun x => sameKey x r) = true := by
  induction rs with
  | nil => intro t r h; simpa [insertRows] using h
  | cons s rs ih =>
    intro t r h
    simp only [insertRows, List.foldl_cons]
    exact ih (insertRow t s) r (any_sameKey_insertRow_mono t r s h)

theorem any_sameKey_insertRows_of_mem (rs : List PriceRow) :
    ∀ t r, r ∈ rs → (insertRows t rs).any (fun x => sameKey x r) = true := by
  induction rs with
  | nil => intro t r h; cases h
  | cons s rs ih =>
    intro t r h
    simp only [insertRows, List.foldl_cons]
    rcases List.mem_cons.mp h with rfl | hmem
    · exact any_sameKey_insertRows_mono rs (insertRow t r) r
        (any_sameKey_insertRow_self t r)
    · exact ih (insertRow t s) r hmem

theorem insertRows_of_all_present (rs : List PriceRow) :
    ∀ t, (∀ r ∈ rs, t.any (fun x => sameKey x r) = true) → insertRows t rs = t := by
  induction rs with
  | nil => intro t _; simp [insertRows]
  | cons s rs ih =>
    intro t h
    simp only [insertRows, List.foldl_cons]
    have hs : insertRow t s = t := by simp [insertRow, h s (by simp)]
    rw [hs]
    exact ih t (fun r hr => h r (by simp [hr]))

/-- C3: the price-point upsert is idempotent with first-write-wins semantics:
a row whose key `(asset, observed_at, currency)` is already stored leaves the
table unchanged; any stored value under a key survives any later batch
unchanged; and re-running an identical batch is a no-op (conflicts never
error — `ON CONFLICT DO NOTHING` is a skip by construction). -/
theorem upsert_idempotent_first_write_wins (t : List PriceRow) (rs : List PriceRow)
    (r : PriceRow) (k v : PriceRow) (hconf : t.any (fun x => sameKey x r) = true)
    (hstored : lookupKey t k = some v) :
    insertRow t r = t ∧
    lookupKey (insertRows t rs) k = some v ∧
    insertRows (insertRows t rs) rs = insertRows t rs := by
  refine ⟨by simp [insertRow, hconf], ?_, ?_⟩
  · rcases insertRows_eq_append rs t with ⟨ex, hex⟩
    rw [hex]
    simp only [lookupKey] at hstored ⊢
    rw [List.find?_append, hstored]
    rfl
  · exact insertRows_of_all_present rs (insertRows t rs)
      (fun r hr => any_sameKey_insertRows_of_mem rs t r hr)

/-- Witness for C3: a concrete table holding a row for bitcoin at epoch 0 in
USD; re-inserting a conflicting row with different values leaves the table
unchanged, the stored value survives a later overlapping batch, and
re-running the batch is a no-op. -/
theorem upsert_idempotent_first_write_wins_witness :
    insertRow [⟨1, 0, "USD", 100, none, none⟩] ⟨1, 0, "USD", 999, some 5, none⟩
      = [⟨1, 0, "USD", 100, none, none⟩] ∧
    lookupKey (insertRows [⟨1, 0, "USD", 100, none, none⟩]
        [⟨1, 0, "USD", 999, some 5, none⟩, ⟨1, 86400000, "USD", 101, none, none⟩])
      ⟨1, 0, "USD", 0, none, none⟩ = some ⟨1, 0, "USD", 100, none, none⟩ ∧
    insertRows (insertRows [⟨1, 0, "USD", 100, none, none⟩]
        [⟨1, 0, "USD", 999, some 5, none⟩, ⟨1, 86400000, "USD", 101, none, none⟩])
        [⟨1, 0, "USD", 999, some 5, none⟩, ⟨1, 86400000, "USD", 101, none, none⟩]
      = insertRows [⟨1, 0, "USD", 100, none, none⟩]
        [⟨1, 0, "USD", 999, some 5, none⟩, ⟨1, 86400000, "USD", 101, none, none⟩] := by
  exact upsert_idempotent_first_write_wins
    [⟨1, 0, "USD", 100, none, none⟩]
    [⟨1, 0, "USD", 999, some 5, none⟩, ⟨1, 86400000, "USD", 101, none, none⟩]
    ⟨1, 0, "USD", 999, some 5, none⟩
    ⟨1, 0, "USD", 0, none, none⟩ ⟨1, 0, "USD", 100, none, none⟩
    (by decide) (by decide)

/-! Helper lemmas about the row normalizer. -/

theorem rowLe_trans : ∀ (a b c : Row), rowLe a b → rowLe b c → rowLe a c := by
  intro a b c hab hbc
  simp only [rowLe, decide_eq_true_eq] at *
  omega

theorem rowLe_total : ∀ (a b : Row), rowLe a b || rowLe b a := by
  intro a b
  simp only [rowLe]
  by_cases h : a.observed_at ≤ b.observed_at
  · simp [h]
  · simp [le_of_not_le h]

theorem zip3Rows_length : ∀ (ps : List (Int × ℚ)) (ms vs : List (Int × Option ℚ)),
    (zip3Rows ps ms vs).length = min ps.length (min ms.length vs.length)
  | [], ms, vs => by simp [zip3Rows]
  | _ :: _, [], vs => by simp [zip3Rows]
  | _ :: _, _ :: _, [] => by simp [zip3Rows]
  | (tp, p) :: ps, (tm, m) :: ms, (tv, v) :: vs => by
      simp only [zip3Rows, List.length_cons, zip3Rows_length ps ms vs]
      omega

theorem zip3Rows_getElem? :
    ∀ (ps : List (Int × ℚ)) (ms vs : List (Int × Option ℚ)) (i : Nat)
      (hp : i < ps.length) (hm : i < ms.length) (hv : i < vs.length),
      (zip3Rows ps ms vs)[i]? =
        some ⟨(ps.get ⟨i, by omega⟩).1, (ps.get ⟨i, by omega⟩).2,
              (ms.get ⟨i, by omega⟩).2, (vs.get ⟨i, by omega⟩).2⟩
  | [], _, _, i, hp, _, _ => by simp at hp
  | _ :: _, [], _, i, _, hm, _ => by simp at hm
  | _ :: _, _ :: _, [], i, _, _, hv => by simp at hv
  | (tp, p) :: ps, (tm, m) :: ms, (tv, v) :: vs, 0, _, _, _ => by
      simp [zip3Rows]
  | (tp, p) :: ps, (tm, m) :: ms, (tv, v) :: vs, i + 1, hp, hm, hv => by
      simp only [zip3Rows, List.getElem?_cons_succ, List.get_eq_getElem,
        List.getElem_cons_succ]
      simpa using zip3Rows_getElem? ps ms vs i
        (by simpa using hp) (by simpa using hm) (by simpa using hv)

/-- C9: the row normalizer produces exactly
`min (len prices) (min (len market_caps) (len volumes))` rows; the output is
a permutation of the positional three-way zip, whose `i`-th row takes its
timestamp (and value) from the `i`-th price entry and its market cap and
volume from the `i`-th entries of the other two sequences; and the output is
sorted ascending by timestamp. -/
theorem parse_rows_positional_truncating_sorted (payload : Payload) :
    (parse_market_chart_to_rows payload).length
      = min payload.prices.length (min payload.market_caps.length payload.total_volumes.length) ∧
    (parse_market_chart_to_rows payload).Perm
      (zip3Rows payload.prices payload.market_caps payload.total_volumes) ∧
    (parse_market_chart_to_rows payload).Pairwise
      (fun a b => a.observed_at ≤ b.observed_at) ∧
    (∀ (i : Nat) (hp : i < payload.prices.length) (hm : i < payload.market_caps.length)
      (hv : i < payload.total_volumes.length),
      (zip3Rows payload.prices payload.market_caps payload.total_volumes)[i]? =
        some ⟨(payload.prices.get ⟨i, by omega⟩).1, (payload.prices.get ⟨i, by omega⟩).2,
              (payload.market_caps.get ⟨i, by omega⟩).2,
              (payload.total_volumes.get ⟨i, by omega⟩).2⟩) := by
  refine ⟨?_, ?_, ?_, ?_⟩
  · simp only [parse_market_chart_to_rows, List.length_mergeSort]
    exact zip3Rows_length _ _ _
  · exact List.mergeSort_perm _ _
  · have h := @List.sorted_mergeSort Row rowLe
      (fun a b c => rowLe_trans a b c) (fun a b => rowLe_total a b)
      (zip3Rows payload.prices payload.market_caps payload.total_volumes)
    exact h.imp (by intro a b hab; simpa [rowLe] using hab)
  · intro i hp hm hv
    exact zip3Rows_getElem? _ _ _ i hp hm hv

/-- Witness for C9 on a payload with uneven sequence lengths (3 prices, 2
market caps, 1 volume): exactly `min 3 (min 2 1) = 1` row is produced, and
its timestamp comes from the first price entry. -/
theorem parse_rows_positional_truncating_sorted_witness :
    (parse_market_chart_to_rows
        ⟨[(2, 10), (1, 20), (3, 30)], [(2, some 1), (1, none)], [(2, some 5)]⟩).length
      = min 3 (min 2 1) ∧
    (zip3Rows [(2, 10), (1, 20), (3, 30)] [(2, some 1), (1, none)] [(2, some 5)])[0]? =
      some ⟨2, 10, some 1, some 5⟩ := by
  have h := parse_rows_positional_truncating_sorted
    ⟨[(2, 10), (1, 20), (3, 30)], [(2, some 1), (1, none)], [(2, some 5)]⟩
  exact ⟨h.1, h.2.2.2 0 (by decide) (by decide) (by decide)⟩

/-! Helper lemmas about the daily collapse (`by_date` OrderedDict). -/

theorem odInsert_map_fst (d : Int) (r : Row) : ∀ l : List (Int × Row),
    (odInsert d r l).map Prod.fst =
      if d ∈ l.map Prod.fst then l.map Prod.fst else l.map Prod.fst ++ [d]
  | [] => by simp [odInsert]
  | (d₀, r₀) :: rest => by
      by_cases h : d₀ = d
      · subst h
        simp [odInsert]
      · simp only [odInsert, if_neg h, List.map_cons, odInsert_map_fst d r rest]
        have hne : ¬d = d₀ := fun hdd => h hdd.symm
        by_cases hm : d ∈ rest.map Prod.fst
        · simp [hm, hne]
        · simp [hm, hne]

theorem byDate_snoc (rows : List Row) (x : Row) :
    byDate (rows ++ [x]) = odInsert (dateOf x) x (byDate rows) := by
  simp [byDate, List.foldl_append]

theorem byDate_keys_nodup (rows : List Row) :
    ((byDate rows).map Prod.fst).Nodup := by
  induction rows using List.reverseRecOn with
  | nil => simp [byDate]
  | append_singleton xs x ih =>
    rw [byDate_snoc, odInsert_map_fst]
    by_cases hm : dateOf x ∈ (byDate xs).map Prod.fst
    · simpa [hm] using ih
    · simp only [hm, if_neg, ite_false]
      simp [List.nodup_append, ih, hm]

theorem odInsert_mem (d : Int) (r : Row) : ∀ (l : List (Int × Row)),
    (l.map Prod.fst).Nodup → ∀ p ∈ odInsert d r l,
      p = (d, r) ∨ (p ∈ l ∧ p.1 ≠ d)
  | [], _, p, hp => by
      simp only [odInsert, List.mem_singleton] at hp
      exact Or.inl hp
  | (d₀, r₀) :: rest, hnd, p, hp => by
      have hnd' : d₀ ∉ rest.map Prod.fst ∧ (rest.map Prod.fst).Nodup :=
        List.nodup_cons.mp (by simpa using hnd)
      by_cases h : d₀ = d
      · rw [odInsert, if_pos h] at hp
        rcases List.mem_cons.mp hp with hpe | hpm
        · exact Or.inl hpe
        · refine Or.inr ⟨List.mem_cons_of_mem _ hpm, ?_⟩
          intro he
          have hmem : p.1 ∈ rest.map Prod.fst := List.mem_map_of_mem Prod.fst hpm
          rw [he, ← h] at hmem
          exact hnd'.1 hmem
      · rw [odInsert, if_neg h] at hp
        rcases List.mem_cons.mp hp with hpe | hpm
        · rw [hpe]
          exact Or.inr ⟨List.mem_cons_self _ _, h⟩
        · rcases odInsert_mem d r rest hnd'.2 p hpm with hl | ⟨hmem, hne⟩
          · exact Or.inl hl
          · exact Or.inr ⟨List.mem_cons_of_mem _ hmem, hne⟩

theorem byDate_entries (rows : List Row)
    (hs : rows.Pairwise (fun a b => a.observed_at ≤ b.observed_at)) :
    ∀ p ∈ byDate rows, p.1 = dateOf p.2 ∧ p.2 ∈ rows ∧
      ∀ s ∈ rows, dateOf s = p.1 → s.observed_at ≤ p.2.observed_at := by
  induction rows using List.reverseRecOn with
  | nil => simp [byDate]
  | append_singleton xs x ih =>
    rw [byDate_snoc]
    have hpa := List.pairwise_append.mp hs
    intro p hp
    rcases odInsert_mem (dateOf x) x (byDate xs) (byDate_keys_nodup xs) p hp with
      rfl | ⟨hmem, hne⟩
    · refine ⟨rfl, by simp, ?_⟩
      intro s hsm _
      rcases List.mem_append.mp hsm with hsx | hsx
      · exact hpa.2.2 s hsx x (by simp)
      · simp only [List.mem_singleton] at hsx
        exact le_of_eq (by rw [hsx])
    · rcases ih hpa.1 p hmem with ⟨h1, h2, h3⟩
      refine ⟨h1, List.mem_append.mpr (Or.inl h2), ?_⟩
      intro s hsm hds
      rcases List.mem_append.mp hsm with hsx | hsx
      · exact h3 s hsx hds
      · simp only [List.mem_singleton] at hsx
        exact absurd (hsx ▸ hds).symm hne

theorem byDate_covers (rows : List Row) :
    ∀ s ∈ rows, dateOf s ∈ (byDate rows).map Prod.fst := by
  induction rows using List.reverseRecOn with
  | nil => simp
  | append_singleton xs x ih =>
    intro s hsm
    rw [byDate_snoc, odInsert_map_fst]
    rcases List.mem_append.mp hsm with hsx | hsx
    · by_cases hm : dateOf x ∈ (byDate xs).map Prod.fst
      · simpa [hm] using ih s hsx
      · simp only [hm, ite_false]
        exact List.mem_append.mpr (Or.inl (ih s hsx))
    · simp only [List.mem_singleton] at hsx
      subst hsx
      by_cases hm : dateOf s ∈ (byDate xs).map Prod.fst
      · simp [hm]
      · simp [hm]

/-- C7: the daily-grain normalizer emits at most one point per UTC calendar
date (the dates of its output are pairwise distinct), covers every date seen
in the normalized payload, keeps for each date a sample of that date whose
timestamp is maximal among the date's samples (the chronologically last one),
and returns the points sorted ascending by timestamp. -/
theorem daily_collapse_last_sample_per_date (payload : Payload) :
    ((daily_rows_of_payload payload).map dateOf).Nodup ∧
    (daily_rows_of_payload payload).Pairwise (fun a b => a.observed_at ≤ b.observed_at) ∧
    (∀ r ∈ daily_rows_of_payload payload,
      r ∈ parse_market_chart_to_rows payload ∧
      ∀ s ∈ parse_market_chart_to_rows payload,
        dateOf s = dateOf r → s.observed_at ≤ r.observed_at) ∧
    (∀ s ∈ parse_market_chart_to_rows payload,
      ∃ r ∈ daily_rows_of_payload payload, dateOf r = dateOf s) := by
  have hsorted : (parse_market_chart_to_rows payload).Pairwise
      (fun a b => a.observed_at ≤ b.observed_at) :=
    (parse_rows_positional_truncating_sorted payload).2.2.1
  have hperm : (daily_rows_of_payload payload).Perm
      ((byDate (parse_market_chart_to_rows payload)).map Prod.snd) :=
    List.mergeSort_perm _ _
  have hentries := byDate_entries (parse_market_chart_to_rows payload) hsorted
  refine ⟨?_, ?_, ?_, ?_⟩
  · have hkeys := byDate_keys_nodup (parse_market_chart_to_rows payload)
    have hmapeq : ((byDate (parse_market_chart_to_rows payload)).map Prod.snd).map dateOf
        = (byDate (parse_market_chart_to_rows payload)).map Prod.fst := by
      rw [List.map_map]
      refine List.map_congr_left ?_
      intro p hp
      exact ((hentries p hp).1).symm
    have : ((daily_rows_of_payload payload).map dateOf).Perm
        ((byDate (parse_market_chart_to_rows payload)).map Prod.fst) := by
      rw [← hmapeq]
      exact hperm.map dateOf
    exact this.nodup_iff.mpr hkeys
  · have h := @List.sorted_mergeSort Row rowLe
      (fun a b c => rowLe_trans a b c) (fun a b => rowLe_total a b)
      ((byDate (parse_market_chart_to_rows payload)).map Prod.snd)
    exact h.imp (by intro a b hab; simpa [rowLe] using hab)
  · intro r hr
    have hr' : r ∈ (byDate (parse_market_chart_to_rows payload)).map Prod.snd :=
      hperm.mem_iff.mp hr
    rcases List.mem_map.mp hr' with ⟨p, hp, rfl⟩
    rcases hentries p hp with ⟨h1, h2, h3⟩
    exact ⟨h2, fun s hsm hds => h3 s hsm (by rw [hds, h1])⟩
  · intro s hsm
    have hd := byDate_covers (parse_market_chart_to_rows payload) s hsm
    rcases List.mem_map.mp hd with ⟨p, hp, hpd⟩
    refine ⟨p.2, hperm.mem_iff.mpr (List.mem_map_of_mem Prod.snd hp), ?_⟩
    rw [← (hentries p hp).1, hpd]

/-- Witness for C7, the claim's concrete case: two same-day samples at 01:00
and 23:00 UTC on 1970-01-01 collapse to the single 23:00 sample (and that
sample is the chronologically last of its date). -/
theorem daily_collapse_last_sample_per_date_witness :
    daily_rows_of_payload
        ⟨[(3600000, 1), (82800000, 2)], [(3600000, none), (82800000, none)],
          [(3600000, none), (82800000, none)]⟩
      = [⟨82800000, 2, none, none⟩] ∧
    (⟨82800000, 2, none, none⟩ : Row) ∈ parse_market_chart_to_rows
        ⟨[(3600000, 1), (82800000, 2)], [(3600000, none), (82800000, none)],
          [(3600000, none), (82800000, none)]⟩ ∧
    ∀ s ∈ parse_market_chart_to_rows
        ⟨[(3600000, 1), (82800000, 2)], [(3600000, none), (82800000, none)],
          [(3600000, none), (82800000, none)]⟩,
      dateOf s = dateOf ⟨82800000, 2, none, none⟩ →
        s.observed_at ≤ (82800000 : Int) := by
  have h := daily_collapse_last_sample_per_date
    ⟨[(3600000, 1), (82800000, 2)], [(3600000, none), (82800000, none)],
      [(3600000, none), (82800000, none)]⟩
  have e1 : parse_market_chart_to_rows
      ⟨[(3600000, 1), (82800000, 2)], [(3600000, none), (82800000, none)],
        [(3600000, none), (82800000, none)]⟩
      = [⟨3600000, 1, none, none⟩, ⟨82800000, 2, none, none⟩] := by
    unfold parse_market_chart_to_rows
    rw [List.mergeSort_of_sorted (by decide)]
    decide
  have e2 : daily_rows_of_payload
      ⟨[(3600000, 1), (82800000, 2)], [(3600000, none), (82800000, none)],
        [(3600000, none), (82800000, none)]⟩
      = [⟨82800000, 2, none, none⟩] := by
    unfold daily_rows_of_payload
    rw [e1, List.mergeSort_of_sorted (by decide)]
    decide
  have hmem : (⟨82800000, 2, none, none⟩ : Row) ∈ daily_rows_of_payload
      ⟨[(3600000, 1), (82800000, 2)], [(3600000, none), (82800000, none)],
        [(3600000, none), (82800000, none)]⟩ := by
    rw [e2]; exact List.mem_singleton.mpr rfl
  refine ⟨e2, (h.2.2.1 _ hmem).1, fun s hs hd => (h.2.2.1 _ hmem).2 s hs hd⟩

/-! Helper lemmas for the membership differ. -/

theorem filter_key_singleton {α : Type} (key : α → Nat) :
    ∀ (l : List α), (l.map key).Nodup → ∀ m ∈ l,
      l.filter (fun x => key x = key m) = [m]
  | [], _, m, hm => by cases hm
  | a :: l, hnd, m, hm => by
      have hnd0 : (key a :: l.map key).Nodup := by simpa using hnd
      have hnd' : (key a ∉ l.map key) ∧ (l.map key).Nodup := List.nodup_cons.mp hnd0
      rcases List.mem_cons.mp hm with rfl | hml
      · rw [List.filter_cons_of_pos (by simp)]
        have hnil : l.filter (fun x => key x = key m) = [] := by
          refine List.filter_eq_nil_iff.mpr ?_
          intro x hx
          simp only [decide_eq_true_eq]
          intro he
          exact hnd'.1 (he ▸ List.mem_map_of_mem key hx)
        rw [hnil]
      · by_cases he : key a = key m
        · exact absurd (he ▸ List.mem_map_of_mem key hml) hnd'.1
        · rw [List.filter_cons_of_neg (by simpa using he)]
          exact filter_key_singleton key l hnd'.2 m hml

/-- C6: for every old member set (`old_members`, duplicate-free as a set) and
every new ranked member list with duplicate-free asset ids, the differ emits
exactly one LEFT event (rank and market cap omitted) per asset in
`old − new`, exactly one JOINED event (carrying the member's market cap and
rank) per asset in `new − old`, and no event for assets present in both. -/
theorem track_group_changes_events (gid : Nat) (old : List AssetId)
    (new_data : List MemberData) (hold : old.Nodup)
    (hnew : (new_data.map MemberData.asset_id).Nodup) :
    (∀ a ∈ old, a ∉ new_data.map MemberData.asset_id →
      (track_group_changes gid old new_data).filter (fun e => e.asset_id = a)
        = [⟨a, gid, "LEFT", none, none⟩]) ∧
    (∀ m ∈ new_data, m.asset_id ∉ old →
      (track_group_changes gid old new_data).filter (fun e => e.asset_id = m.asset_id)
        = [⟨m.asset_id, gid, "JOINED", some m.market_cap, some m.rank⟩]) ∧
    (∀ a ∈ old, a ∈ new_data.map MemberData.asset_id →
      (track_group_changes gid old new_data).filter (fun e => e.asset_id = a) = []) := by
  simp only [track_group_changes, List.filter_append]
  refine ⟨?_, ?_, ?_⟩
  · intro a ha hnm
    have hleft : ((old.filter (fun x => x ∉ new_data.map MemberData.asset_id)).map
        (fun x => Event.mk x gid "LEFT" none none)).filter (fun e => e.asset_id = a)
        = [Event.mk a gid "LEFT" none none] := by
      rw [List.filter_map]
      have hfil : (old.filter (fun x => x ∉ new_data.map MemberData.asset_id)).filter
          ((fun (e : Event) => decide (e.asset_id = a)) ∘
            (fun x => Event.mk x gid "LEFT" none none))
          = [a] := by
        have hmem : a ∈ old.filter (fun x => x ∉ new_data.map MemberData.asset_id) :=
          List.mem_filter.mpr ⟨ha, by simpa using hnm⟩
        have hnd : old.filter (fun x => x ∉ new_data.map MemberData.asset_id) |>.Nodup :=
          hold.filter _
        have h := filter_key_singleton (fun x => x)
          (old.filter (fun x => x ∉ new_data.map MemberData.asset_id))
          (by simpa using hnd) a hmem
        simpa using h
      rw [hfil]
      rfl
    have hjoined : ((new_data.filter (fun m =>
          m.asset_id ∈ (new_data.map MemberData.asset_id).filter (fun x => x ∉ old))).map
        (fun m => Event.mk m.asset_id gid "JOINED" (some m.market_cap) (some m.rank))).filter
          (fun e => e.asset_id = a) = [] := by
      rw [List.filter_map]
      have hfil : (new_data.filter (fun m =>
          m.asset_id ∈ (new_data.map MemberData.asset_id).filter (fun x => x ∉ old))).filter
          ((fun (e : Event) => decide (e.asset_id = a)) ∘
            (fun m => Event.mk m.asset_id gid "JOINED" (some m.market_cap) (some m.rank)))
          = [] := by
        refine List.filter_eq_nil_iff.mpr ?_
        intro m hm
        have hmn : m ∈ new_data := (List.mem_filter.mp hm).1
        simp only [Function.comp_apply, decide_eq_true_eq]
        intro he
        exact hnm (he ▸ List.mem_map_of_mem MemberData.asset_id hmn)
      rw [hfil]
      rfl
    rw [hleft, hjoined]
    rfl
  · intro m hm hno
    have hleft : ((old.filter (fun x => x ∉ new_data.map MemberData.asset_id)).map
        (fun x => Event.mk x gid "LEFT" none none)).filter
          (fun e => e.asset_id = m.asset_id) = [] := by
      rw [List.filter_map]
      have hfil : (old.filter (fun x => x ∉ new_data.map MemberData.asset_id)).filter
          ((fun (e : Event) => decide (e.asset_id = m.asset_id)) ∘
            (fun x => Event.mk x gid "LEFT" none none)) = [] := by
        refine List.filter_eq_nil_iff.mpr ?_
        intro x hx
        have hxo : x ∈ old := (List.mem_filter.mp hx).1
        simp only [Function.comp_apply, decide_eq_true_eq]
        intro he
        exact hno (he ▸ hxo)
      rw [hfil]
      rfl
    have hjoined : ((new_data.filter (fun x =>
          x.asset_id ∈ (new_data.map MemberData.asset_id).filter (fun x => x ∉ old))).map
        (fun x => Event.mk x.asset_id gid "JOINED" (some x.market_cap) (some x.rank))).filter
          (fun e => e.asset_id = m.asset_id)
        = [Event.mk m.asset_id gid "JOINED" (some m.market_cap) (some m.rank)] := by
      rw [List.filter_map]
      have hmemj : m ∈ new_data.filter (fun x =>
          x.asset_id ∈ (new_data.map MemberData.asset_id).filter (fun x => x ∉ old)) := by
        refine List.mem_filter.mpr ⟨hm, ?_⟩
        simp only [decide_eq_true_eq]
        exact List.mem_filter.mpr
          ⟨List.mem_map_of_mem MemberData.asset_id hm, by simpa using hno⟩
      have hndj : ((new_data.filter (fun x =>
          x.asset_id ∈ (new_data.map MemberData.asset_id).filter (fun x => x ∉ old))).map
            MemberData.asset_id).Nodup := by
        have hsub : List.Sublist
            ((new_data.filter (fun x =>
              x.asset_id ∈ (new_data.map MemberData.asset_id).filter (fun x => x ∉ old))).map
                MemberData.asset_id) (new_data.map MemberData.asset_id) :=
          (List.filter_sublist _).map MemberData.asset_id
        exact hsub.nodup hnew
      have h := filter_key_singleton MemberData.asset_id
        (new_data.filter (fun x =>
          x.asset_id ∈ (new_data.map MemberData.asset_id).filter (fun x => x ∉ old)))
        hndj m hmemj
      rw [show (new_data.filter (fun x =>
          x.asset_id ∈ (new_data.map MemberData.asset_id).filter (fun x => x ∉ old))).filter
          ((fun (e : Event) => decide (e.asset_id = m.asset_id)) ∘
            (fun (x : MemberData) =>
              Event.mk x.asset_id gid "JOINED" (some x.market_cap) (some x.rank)))
          = [m] from h]
      rfl
    rw [hleft, hjoined]
    rfl
  · intro a ha hnm
    have hleft : ((old.filter (fun x => x ∉ new_data.map MemberData.asset_id)).map
        (fun x => Event.mk x gid "LEFT" none none)).filter (fun e => e.asset_id = a)
        = [] := by
      rw [List.filter_map]
      have hfil : (old.filter (fun x => x ∉ new_data.map MemberData.asset_id)).filter
          ((fun (e : Event) => decide (e.asset_id = a)) ∘
            (fun x => Event.mk x gid "LEFT" none none)) = [] := by
        refine List.filter_eq_nil_iff.mpr ?_
        intro x hx
        have hxn : x ∉ new_data.map MemberData.asset_id := by
          simpa using (List.mem_filter.mp hx).2
        simp only [Function.comp_apply, decide_eq_true_eq]
        intro he
        exact hxn (he ▸ hnm)
      rw [hfil]
      rfl
    have hjoined : ((new_data.filter (fun x =>
          x.asset_id ∈ (new_data.map MemberData.asset_id).filter (fun x => x ∉ old))).map
        (fun x => Event.mk x.asset_id gid "JOINED" (some x.market_cap) (some x.rank))).filter
          (fun e => e.asset_id = a) = [] := by
      rw [List.filter_map]
      have hfil : (new_data.filter (fun x =>
          x.asset_id ∈ (new_data.map MemberData.asset_id).filter (fun x => x ∉ old))).filter
          ((fun (e : Event) => decide (e.asset_id = a)) ∘
            (fun x => Event.mk x.asset_id gid "JOINED" (some x.market_cap) (some x.rank)))
          = [] := by
        refine List.filter_eq_nil_iff.mpr ?_
        intro x hx
        have hxj : x.asset_id ∈ (new_data.map MemberData.asset_id).filter
            (fun x => x ∉ old) := by
          simpa using (List.mem_filter.mp hx).2
        have hxo : x.asset_id ∉ old := by
          simpa using (List.mem_filter.mp hxj).2
        simp only [Function.comp_apply, decide_eq_true_eq]
        intro he
        exact hxo (he ▸ ha)
      rw [hfil]
      rfl
    rw [hleft, hjoined]
    rfl

/-- Witness for C6, the claim's concrete case: old members `{1, 2, 3}` and
new members `[2, 3, 4]` produce exactly one LEFT event for asset 1, exactly
one JOINED event for asset 4 (with its market cap and rank), and no events
for assets 2 and 3. -/
theorem track_group_changes_events_witness :
    (track_group_changes 7 [1, 2, 3]
        [⟨2, 50, 1⟩, ⟨3, 40, 2⟩, ⟨4, 30, 3⟩]).filter (fun e => e.asset_id = 1)
      = [⟨1, 7, "LEFT", none, none⟩] ∧
    (track_group_changes 7 [1, 2, 3]
        [⟨2, 50, 1⟩, ⟨3, 40, 2⟩, ⟨4, 30, 3⟩]).filter (fun e => e.asset_id = 4)
      = [⟨4, 7, "JOINED", some 30, some 3⟩] ∧
    (track_group_changes 7 [1, 2, 3]
        [⟨2, 50, 1⟩, ⟨3, 40, 2⟩, ⟨4, 30, 3⟩]).filter (fun e => e.asset_id = 2)
      = [] ∧
    (track_group_changes 7 [1, 2, 3]
        [⟨2, 50, 1⟩, ⟨3, 40, 2⟩, ⟨4, 30, 3⟩]).filter (fun e => e.asset_id = 3)
      = [] := by
  have h := track_group_changes_events 7 [1, 2, 3]
    [⟨2, 50, 1⟩, ⟨3, 40, 2⟩, ⟨4, 30, 3⟩] (by decide) (by decide)
  refine ⟨h.1 1 (by decide) (by decide), ?_, ?_, ?_⟩
  · exact h.2.1 ⟨4, 30, 3⟩ (by decide) (by decide)
  · exact h.2.2 2 (by decide) (by decide)
  · exact h.2.2 3 (by decide) (by decide)

/-! Helper lemmas about `bulk_insert_prices_and_update_last_observed`. -/

theorem daily_rows_of_payload_sorted (payload : Payload) :
    (daily_rows_of_payload payload).Pairwise (fun a b => a.observed_at ≤ b.observed_at) := by
  have h := @List.sorted_mergeSort Row rowLe
    (fun a b c => rowLe_trans a b c) (fun a b => rowLe_total a b)
    ((byDate (parse_market_chart_to_rows payload)).map Prod.snd)
  exact h.imp (by intro a b hab; simpa [rowLe] using hab)

theorem exceptOkBind {ε α β : Type} (a : α) (f : α → Except ε β) :
    (Except.ok a : Except ε α) >>= f = f a := rfl

theorem exceptPureEqOk {ε α : Type} (a : α) :
    (pure a : Except ε α) = Except.ok a := rfl

theorem fetch_daily_series_ok (fetchRaw : Int → Except String Payload) (d : Int)
    (drs : List Row) (h : fetch_daily_series fetchRaw d = .ok drs) :
    ∃ p, drs = daily_rows_of_payload p := by
  simp only [fetch_daily_series] at h
  cases hf : fetchRaw (max 1 (min d BULK_DAYS_BACK)) with
  | ok p =>
      rw [hf] at h
      refine ⟨p, ?_⟩
      simpa [Except.map] using h.symm
  | error e =>
      rw [hf] at h
      simp [Except.map] at h

theorem getLast_is_max_of_sorted :
    ∀ (l : List Row) (_hs : l.Pairwise (fun a b => a.observed_at ≤ b.observed_at))
      (hne : l ≠ []), ∀ r ∈ l, r.observed_at ≤ (l.getLast hne).observed_at
  | [], _, hne, _, _ => absurd rfl hne
  | [a], _, _, r, hr => by
      simp only [List.mem_singleton] at hr
      subst hr
      exact le_refl _
  | a :: b :: l, hs, hne, r, hr => by
      have hs' := List.pairwise_cons.mp hs
      rw [List.getLast_cons (by simp)]
      rcases List.mem_cons.mp hr with rfl | hr'
      · exact le_trans (hs'.1 _ (List.getLast_mem _))
          (le_refl _)
      · exact getLast_is_max_of_sorted (b :: l) hs'.2 (by simp) r hr'

/-- Shape of a successful daily-only call (hourly grain skipped):
the daily rows are inserted, the daily watermark is advanced through
`advanceWatermark` with the last (maximal) fetched timestamp, and the counts
report the daily rows with no hourly error. -/
theorem bulk_insert_daily_only_shape (dailyRaw hourlyRaw : Int → Except String Payload)
    (st : Store) (aid : AssetId) (d : Int) (drs : List Row)
    (hfd : fetch_daily_series dailyRaw d = .ok drs) (hne : drs ≠ []) :
    bulk_insert_prices_and_update_last_observed dailyRaw hourlyRaw st aid (some d) none
      = .ok
        ({ daily_table := insertRows st.daily_table (drs.map (toPriceRow aid)),
           hourly_table := st.hourly_table,
           last_daily := fun a => if a = aid then
               advanceWatermark (st.last_daily aid) ((drs.getLast hne).observed_at)
             else st.last_daily a,
           last_hourly := st.last_hourly },
         ⟨drs.length, 0, none⟩) := by
  simp only [bulk_insert_prices_and_update_last_observed, hfd, exceptOkBind,
    exceptPureEqOk, List.isEmpty_eq_false.mpr hne, Bool.false_eq_true, if_false,
    List.getLast?_eq_getLast drs hne]
  rfl

/-- Shape of a call whose hourly fetch raises while the daily fetch
succeeds: identical daily effects, untouched hourly table and watermark, and
counts reporting `hourly_rows = 0` with the exception text. -/
theorem bulk_insert_hourly_error_shape (dailyRaw hourlyRaw : Int → Except String Payload)
    (st : Store) (aid : AssetId) (d dh : Int) (drs : List Row) (e : String)
    (hfd : fetch_daily_series dailyRaw d = .ok drs) (hne : drs ≠ [])
    (hfh : fetch_hourly_series hourlyRaw dh = .error e) :
    bulk_insert_prices_and_update_last_observed dailyRaw hourlyRaw st aid (some d) (some dh)
      = .ok
        ({ daily_table := insertRows st.daily_table (drs.map (toPriceRow aid)),
           hourly_table := st.hourly_table,
           last_daily := fun a => if a = aid then
               advanceWatermark (st.last_daily aid) ((drs.getLast hne).observed_at)
             else st.last_daily a,
           last_hourly := st.last_hourly },
         ⟨drs.length, 0, some e⟩) := by
  simp only [bulk_insert_prices_and_update_last_observed, hfd, exceptOkBind,
    exceptPureEqOk, List.isEmpty_eq_false.mpr hne, Bool.false_eq_true, if_false,
    ENABLE_HOURLY, if_true, hfh, List.getLast?_eq_getLast drs hne]
  rfl

theorem parse_rows_sorted (payload : Payload) :
    (parse_market_chart_to_rows payload).Pairwise
      (fun a b => a.observed_at ≤ b.observed_at) := by
  have h := @List.sorted_mergeSort Row rowLe
    (fun a b c => rowLe_trans a b c) (fun a b => rowLe_total a b)
    (zip3Rows payload.prices payload.market_caps payload.total_volumes)
  exact h.imp (by intro a b hab; simpa [rowLe] using hab)

theorem fetch_hourly_series_ok (fetchRaw : Int → Except String Payload) (d : Int)
    (hrs : List Row) (h : fetch_hourly_series fetchRaw d = .ok hrs) :
    ∃ p, hrs = parse_market_chart_to_rows p := by
  simp only [fetch_hourly_series] at h
  cases hf : fetchRaw (max 1 (min d HOURLY_MAX_DAYS_BACK)) with
  | ok p =>
      rw [hf] at h
      refine ⟨p, ?_⟩
      simpa [Except.map] using h.symm
  | error e =>
      rw [hf] at h
      simp [Except.map] at h

/-- Shape of a successful hourly-only call (daily grain skipped): the hourly
rows are inserted and the hourly watermark advanced through
`advanceWatermark` with the last fetched timestamp. -/
theorem bulk_insert_hourly_only_shape (dailyRaw hourlyRaw : Int → Except String Payload)
    (st : Store) (aid : AssetId) (dh : Int) (hrs : List Row)
    (hfh : fetch_hourly_series hourlyRaw dh = .ok hrs) (hne : hrs ≠ []) :
    bulk_insert_prices_and_update_last_observed dailyRaw hourlyRaw st aid none (some dh)
      = .ok
        ({ daily_table := st.daily_table,
           hourly_table := insertRows st.hourly_table (hrs.map (toPriceRow aid)),
           last_daily := st.last_daily,
           last_hourly := fun a => if a = aid then
               advanceWatermark (st.last_hourly aid) ((hrs.getLast hne).observed_at)
             else st.last_hourly a },
         ⟨0, hrs.length, none⟩) := by
  simp only [bulk_insert_prices_and_update_last_observed, exceptOkBind,
    exceptPureEqOk, ENABLE_HOURLY, if_true, hfh,
    List.isEmpty_eq_false.mpr hne, Bool.false_eq_true, if_false,
    List.getLast?_eq_getLast hrs hne]
  rfl

/-- C5: the watermark is monotone.  After a successful ingestion batch the
corresponding watermark (daily or hourly) is set through the guarded update
`advanceWatermark` with the maximum `observed_at` of the fetched points (the
last of the sorted rows): it becomes that maximum when the stored watermark
is NULL or strictly smaller, and is left unchanged when the batch maximum is
not greater than the stored value — in particular an older batch cannot move
it backward. -/
theorem watermark_monotonic_advance (dailyRaw hourlyRaw : Int → Except String Payload)
    (st : Store) (aid : AssetId) (d dh : Int) (drs hrs : List Row)
    (hfd : fetch_daily_series dailyRaw d = .ok drs) (hne : drs ≠ [])
    (hfh : fetch_hourly_series hourlyRaw dh = .ok hrs) (hneh : hrs ≠ []) :
    (∃ st', bulk_insert_prices_and_update_last_observed dailyRaw hourlyRaw st aid (some d) none
        = .ok (st', ⟨drs.length, 0, none⟩) ∧
      (∀ r ∈ drs, r.observed_at ≤ (drs.getLast hne).observed_at) ∧
      st'.last_daily aid = advanceWatermark (st.last_daily aid) ((drs.getLast hne).observed_at) ∧
      (st.last_daily aid = none →
        st'.last_daily aid = some ((drs.getLast hne).observed_at)) ∧
      (∀ c, st.last_daily aid = some c → c < (drs.getLast hne).observed_at →
        st'.last_daily aid = some ((drs.getLast hne).observed_at)) ∧
      (∀ c, st.last_daily aid = some c → (drs.getLast hne).observed_at ≤ c →
        st'.last_daily aid = st.last_daily aid)) ∧
    (∃ st'', bulk_insert_prices_and_update_last_observed dailyRaw hourlyRaw st aid none (some dh)
        = .ok (st'', ⟨0, hrs.length, none⟩) ∧
      (∀ r ∈ hrs, r.observed_at ≤ (hrs.getLast hneh).observed_at) ∧
      st''.last_hourly aid
        = advanceWatermark (st.last_hourly aid) ((hrs.getLast hneh).observed_at) ∧
      (∀ c, st.last_hourly aid = some c → (hrs.getLast hneh).observed_at ≤ c →
        st''.last_hourly aid = st.last_hourly aid)) := by
  constructor
  · refine ⟨_, bulk_insert_daily_only_shape dailyRaw hourlyRaw st aid d drs hfd hne,
      ?_, ?_, ?_, ?_, ?_⟩
    · rcases fetch_daily_series_ok dailyRaw d drs hfd with ⟨p, rfl⟩
      exact getLast_is_max_of_sorted _ (daily_rows_of_payload_sorted p) hne
    · simp
    · intro hnone
      simp [hnone, advanceWatermark]
    · intro c hc hlt
      simp [hc, advanceWatermark, hlt]
    · intro c hc hge
      simp [hc, advanceWatermark, not_lt_of_le hge]
  · refine ⟨_, bulk_insert_hourly_only_shape dailyRaw hourlyRaw st aid dh hrs hfh hneh,
      ?_, ?_, ?_⟩
    · rcases fetch_hourly_series_ok hourlyRaw dh hrs hfh with ⟨p, rfl⟩
      exact getLast_is_max_of_sorted _ (parse_rows_sorted p) hneh
    · simp
    · intro c hc hge
      simp [hc, advanceWatermark, not_lt_of_le hge]

/-- Witness for C5: a single fetched point at timestamp 100 against a stored
daily watermark of 200 — the batch maximum (100) is not greater, so the
daily watermark stays at 200; the hourly watermark, stored as NULL, advances
to 100. -/
theorem watermark_monotonic_advance_witness :
    (∃ st', bulk_insert_prices_and_update_last_observed
        (fun _ => .ok ⟨[(100, 1)], [(100, none)], [(100, none)]⟩)
        (fun _ => .ok ⟨[(100, 1)], [(100, none)], [(100, none)]⟩)
        ⟨[], [], fun _ => some 200, fun _ => none⟩ 1 (some 5) none
        = .ok (st', ⟨1, 0, none⟩) ∧
      st'.last_daily 1 = some 200) ∧
    (∃ st'', bulk_insert_prices_and_update_last_observed
        (fun _ => .ok ⟨[(100, 1)], [(100, none)], [(100, none)]⟩)
        (fun _ => .ok ⟨[(100, 1)], [(100, none)], [(100, none)]⟩)
        ⟨[], [], fun _ => some 200, fun _ => none⟩ 1 none (some 3)
        = .ok (st'', ⟨0, 1, none⟩) ∧
      st''.last_hourly 1 = some 100) := by
  have e1 : parse_market_chart_to_rows ⟨[(100, 1)], [(100, none)], [(100, none)]⟩
      = [⟨100, 1, none, none⟩] := by
    unfold parse_market_chart_to_rows
    rw [List.mergeSort_of_sorted (by decide)]
    decide
  have e2 : daily_rows_of_payload ⟨[(100, 1)], [(100, none)], [(100, none)]⟩
      = [⟨100, 1, none, none⟩] := by
    unfold daily_rows_of_payload
    rw [e1, List.mergeSort_of_sorted (by decide)]
    decide
  have hfd : fetch_daily_series
      (fun _ => .ok ⟨[(100, 1)], [(100, none)], [(100, none)]⟩) 5
      = .ok [⟨100, 1, none, none⟩] := by
    simp only [fetch_daily_series, Except.map]
    rw [e2]
  have hfh : fetch_hourly_series
      (fun _ => .ok ⟨[(100, 1)], [(100, none)], [(100, none)]⟩) 3
      = .ok [⟨100, 1, none, none⟩] := by
    simp only [fetch_hourly_series, Except.map]
    rw [e1]
  rcases watermark_monotonic_advance
      (fun _ => .ok ⟨[(100, 1)], [(100, none)], [(100, none)]⟩)
      (fun _ => .ok ⟨[(100, 1)], [(100, none)], [(100, none)]⟩)
      ⟨[], [], fun _ => some 200, fun _ => none⟩ 1 5 3
      [⟨100, 1, none, none⟩] [⟨100, 1, none, none⟩]
      hfd (by decide) hfh (by decide) with
    ⟨⟨st', hok, _, _, _, _, hnoop⟩, ⟨st'', hok2, _, hadv, _⟩⟩
  exact ⟨⟨st', hok, by rw [hnoop 200 rfl (by decide)]⟩,
    ⟨st'', hok2, by rw [hadv]; rfl⟩⟩

/-- C10: if the hourly step raises for an asset while the daily fetch
succeeds, the per-asset result reports `hourly_rows = 0` and carries the
exception text as `hourly_error`, the hourly watermark and hourly table are
untouched, and the daily effects (rows inserted, count, daily watermark
update) are exactly those of the same call with the hourly grain skipped. -/
theorem hourly_failure_isolated (dailyRaw hourlyRaw : Int → Except String Payload)
    (st : Store) (aid : AssetId) (d dh : Int) (drs : List Row) (e : String)
    (hfd : fetch_daily_series dailyRaw d = .ok drs) (hne : drs ≠ [])
    (hfh : fetch_hourly_series hourlyRaw dh = .error e) :
    ∃ st' c,
      bulk_insert_prices_and_update_last_observed dailyRaw hourlyRaw st aid (some d) (some dh)
        = .ok (st', c) ∧
      c.hourly_rows = 0 ∧ c.hourly_error = some e ∧ c.daily_rows = drs.length ∧
      st'.last_hourly = st.last_hourly ∧ st'.hourly_table = st.hourly_table ∧
      bulk_insert_prices_and_update_last_observed dailyRaw hourlyRaw st aid (some d) none
        = .ok (st', ⟨c.daily_rows, 0, none⟩) := by
  refine ⟨_, _, bulk_insert_hourly_error_shape dailyRaw hourlyRaw st aid d dh drs e hfd hne hfh,
    rfl, rfl, rfl, rfl, rfl, ?_⟩
  exact bulk_insert_daily_only_shape dailyRaw hourlyRaw st aid d drs hfd hne

/-- Witness for C10: a concrete asset whose hourly fetch raises `"boom"`
while its daily fetch returns one point — the daily point is still inserted
and the daily watermark advanced, with `hourly_error = "boom"`. -/
theorem hourly_failure_isolated_witness :
    ∃ st' c, bulk_insert_prices_and_update_last_observed
        (fun _ => .ok ⟨[(100, 1)], [(100, none)], [(100, none)]⟩)
        (fun _ => .error "boom")
        ⟨[], [], fun _ => none, fun _ => none⟩ 1 (some 5) (some 3)
        = .ok (st', c) ∧
      c.hourly_rows = 0 ∧ c.hourly_error = some "boom" ∧ c.daily_rows = 1 ∧
      st'.last_hourly 1 = none := by
  have e1 : parse_market_chart_to_rows ⟨[(100, 1)], [(100, none)], [(100, none)]⟩
      = [⟨100, 1, none, none⟩] := by
    unfold parse_market_chart_to_rows
    rw [List.mergeSort_of_sorted (by decide)]
    decide
  have e2 : daily_rows_of_payload ⟨[(100, 1)], [(100, none)], [(100, none)]⟩
      = [⟨100, 1, none, none⟩] := by
    unfold daily_rows_of_payload
    rw [e1, List.mergeSort_of_sorted (by decide)]
    decide
  have hfd : fetch_daily_series
      (fun _ => .ok ⟨[(100, 1)], [(100, none)], [(100, none)]⟩) 5
      = .ok [⟨100, 1, none, none⟩] := by
    simp only [fetch_daily_series, Except.map]
    rw [e2]
  have hfh : fetch_hourly_series
      (fun (_ : Int) => (.error "boom" : Except String Payload)) 3
      = .error "boom" := rfl
  rcases hourly_failure_isolated
      (fun _ => .ok ⟨[(100, 1)], [(100, none)], [(100, none)]⟩)
      (fun _ => .error "boom")
      ⟨[], [], fun _ => none, fun _ => none⟩ 1 5 3 [⟨100, 1, none, none⟩] "boom"
      hfd (by decide) hfh with ⟨st', c, hok, h0, herr, hcount, hlh, _, _⟩
  exact ⟨st', c, hok, h0, herr, hcount, by rw [congrFun hlh 1]⟩

/-! The meme-group mandatory-member rule. -/

/-- C2 (amended): behaviour of the MEME_TOP5 construction.  If `"dogecoin"`
is among the ids of the ranked top 5 the group is exactly the ranked top 5
(5 members whenever there are at least 5 candidates); if it is ranked outside
the top 5 but present in the candidate set, the first dogecoin row of the
ranked candidates is appended after the top 5 without displacing them; if it
is absent from the candidate set but present in the global snapshot, the
global snapshot's dogecoin row is appended instead; only when it is absent
from both is the group exactly the ranked top 5. -/
theorem meme_mandatory_member_rule (global_markets cands : List Coin) :
    ("dogecoin" ∈ ((sortByMcapDesc cands).take 5).map Coin.id →
      select_meme_rows global_markets cands = (sortByMcapDesc cands).take 5 ∧
      (5 ≤ cands.length → (select_meme_rows global_markets cands).length = 5)) ∧
    ("dogecoin" ∉ ((sortByMcapDesc cands).take 5).map Coin.id →
      "dogecoin" ∈ (sortByMcapDesc cands).map Coin.id →
      ∃ r, (sortByMcapDesc cands).find? (fun c => c.id = "dogecoin") = some r ∧
        r.id = "dogecoin" ∧
        select_meme_rows global_markets cands = (sortByMcapDesc cands).take 5 ++ [r]) ∧
    ("dogecoin" ∉ (sortByMcapDesc cands).map Coin.id →
      "dogecoin" ∈ global_markets.map Coin.id →
      ∃ r, markets_by_id_get global_markets "dogecoin" = some r ∧
        r.id = "dogecoin" ∧ r ∈ global_markets ∧
        select_meme_rows global_markets cands = (sortByMcapDesc cands).take 5 ++ [r]) ∧
    ("dogecoin" ∉ (sortByMcapDesc cands).map Coin.id →
      "dogecoin" ∉ global_markets.map Coin.id →
      select_meme_rows global_markets cands = (sortByMcapDesc cands).take 5) := by
  have htake : ∀ (h : "dogecoin" ∉ (sortByMcapDesc cands).map Coin.id),
      "dogecoin" ∉ ((sortByMcapDesc cands).take 5).map Coin.id := by
    intro h hmem
    rcases List.mem_map.mp hmem with ⟨c, hc, hcid⟩
    exact h (List.mem_map.mpr ⟨c, List.mem_of_mem_take hc, hcid⟩)
  refine ⟨?_, ?_, ?_, ?_⟩
  · intro hin
    constructor
    · simp only [select_meme_rows, if_pos hin]
    · intro h5
      simp only [select_meme_rows, if_pos hin]
      rw [List.length_take,
        show (sortByMcapDesc cands).length = cands.length from by
          simp [sortByMcapDesc]]
      omega
  · intro hout hmem
    have hsome : ((sortByMcapDesc cands).find? (fun c => c.id = "dogecoin")).isSome := by
      rw [List.find?_isSome]
      rcases List.mem_map.mp hmem with ⟨c, hc, hcid⟩
      exact ⟨c, hc, by simp [hcid]⟩
    rcases Option.isSome_iff_exists.mp hsome with ⟨r, hr⟩
    have hrid : r.id = "dogecoin" := by simpa using List.find?_some hr
    refine ⟨r, hr, hrid, ?_⟩
    simp only [select_meme_rows, if_neg hout, hr]
    rw [if_pos (by rw [hrid]; exact hout)]
  · intro hnm hg
    have hnone : (sortByMcapDesc cands).find? (fun c => c.id = "dogecoin") = none := by
      rw [List.find?_eq_none]
      intro c hc
      simp only [decide_eq_true_eq]
      intro hcid
      exact hnm (List.mem_map.mpr ⟨c, hc, hcid⟩)
    have hsome : (markets_by_id_get global_markets "dogecoin").isSome := by
      unfold markets_by_id_get
      rw [List.find?_isSome]
      rcases List.mem_map.mp hg with ⟨c, hc, hcid⟩
      exact ⟨c, List.mem_reverse.mpr hc, by simp [hcid]⟩
    rcases Option.isSome_iff_exists.mp hsome with ⟨r, hr⟩
    have hrid : r.id = "dogecoin" := by
      have := List.find?_some (by simpa [markets_by_id_get] using hr)
      simpa using this
    have hrmem : r ∈ global_markets := by
      have := List.mem_of_find?_eq_some (by simpa [markets_by_id_get] using hr)
      exact List.mem_reverse.mp this
    refine ⟨r, hr, hrid, hrmem, ?_⟩
    simp only [select_meme_rows, if_neg (htake hnm), hnone, hr]
    rw [if_pos (by rw [hrid]; exact htake hnm)]
  · intro hnm hng
    have hnone : (sortByMcapDesc cands).find? (fun c => c.id = "dogecoin") = none := by
      rw [List.find?_eq_none]
      intro c hc
      simp only [decide_eq_true_eq]
      intro hcid
      exact hnm (List.mem_map.mpr ⟨c, hc, hcid⟩)
    have hnone' : markets_by_id_get global_markets "dogecoin" = none := by
      unfold markets_by_id_get
      rw [List.find?_eq_none]
      intro c hc
      simp only [decide_eq_true_eq]
      intro hcid
      exact hng (List.mem_map.mpr ⟨c, List.mem_reverse.mp hc, hcid⟩)
    simp only [select_meme_rows, if_neg (htake hnm), hnone, hnone']

/-- Witness for C2 (amended), exercising all four cases on concrete
candidate lists (already ranked by market cap so the sort is the identity). -/
theorem meme_mandatory_member_rule_witness :
    select_meme_rows []
        [⟨"dogecoin", "doge", "Dogecoin", some 50⟩, ⟨"b", "B", "B", some 40⟩,
         ⟨"c", "C", "C", some 30⟩, ⟨"d", "D", "D", some 20⟩, ⟨"e", "E", "E", some 10⟩]
      = [⟨"dogecoin", "doge", "Dogecoin", some 50⟩, ⟨"b", "B", "B", some 40⟩,
         ⟨"c", "C", "C", some 30⟩, ⟨"d", "D", "D", some 20⟩, ⟨"e", "E", "E", some 10⟩] ∧
    select_meme_rows []
        [⟨"a", "A", "A", some 50⟩, ⟨"b", "B", "B", some 40⟩, ⟨"c", "C", "C", some 30⟩,
         ⟨"d", "D", "D", some 20⟩, ⟨"e", "E", "E", some 10⟩,
         ⟨"dogecoin", "doge", "Dogecoin", some 5⟩]
      = [⟨"a", "A", "A", some 50⟩, ⟨"b", "B", "B", some 40⟩, ⟨"c", "C", "C", some 30⟩,
         ⟨"d", "D", "D", some 20⟩, ⟨"e", "E", "E", some 10⟩,
         ⟨"dogecoin", "doge", "Dogecoin", some 5⟩] ∧
    select_meme_rows [⟨"dogecoin", "doge", "Dogecoin", some 5⟩]
        [⟨"a", "A", "A", some 50⟩, ⟨"b", "B", "B", some 40⟩, ⟨"c", "C", "C", some 30⟩,
         ⟨"d", "D", "D", some 20⟩, ⟨"e", "E", "E", some 10⟩]
      = [⟨"a", "A", "A", some 50⟩, ⟨"b", "B", "B", some 40⟩, ⟨"c", "C", "C", some 30⟩,
         ⟨"d", "D", "D", some 20⟩, ⟨"e", "E", "E", some 10⟩,
         ⟨"dogecoin", "doge", "Dogecoin", some 5⟩] ∧
    select_meme_rows []
        [⟨"a", "A", "A", some 50⟩, ⟨"b", "B", "B", some 40⟩, ⟨"c", "C", "C", some 30⟩,
         ⟨"d", "D", "D", some 20⟩, ⟨"e", "E", "E", some 10⟩]
      = [⟨"a", "A", "A", some 50⟩, ⟨"b", "B", "B", some 40⟩, ⟨"c", "C", "C", some 30⟩,
         ⟨"d", "D", "D", some 20⟩, ⟨"e", "E", "E", some 10⟩] := by
  have hs1 : sortByMcapDesc
      [⟨"dogecoin", "doge", "Dogecoin", some 50⟩, ⟨"b", "B", "B", some 40⟩,
       ⟨"c", "C", "C", some 30⟩, ⟨"d", "D", "D", some 20⟩, ⟨"e", "E", "E", some 10⟩]
      = [⟨"dogecoin", "doge", "Dogecoin", some 50⟩, ⟨"b", "B", "B", some 40⟩,
         ⟨"c", "C", "C", some 30⟩, ⟨"d", "D", "D", some 20⟩, ⟨"e", "E", "E", some 10⟩] := by
    unfold sortByMcapDesc
    exact List.mergeSort_of_sorted (by decide)
  have hs2 : sortByMcapDesc
      [⟨"a", "A", "A", some 50⟩, ⟨"b", "B", "B", some 40⟩, ⟨"c", "C", "C", some 30⟩,
       ⟨"d", "D", "D", some 20⟩, ⟨"e", "E", "E", some 10⟩,
       ⟨"dogecoin", "doge", "Dogecoin", some 5⟩]
      = [⟨"a", "A", "A", some 50⟩, ⟨"b", "B", "B", some 40⟩, ⟨"c", "C", "C", some 30⟩,
         ⟨"d", "D", "D", some 20⟩, ⟨"e", "E", "E", some 10⟩,
         ⟨"dogecoin", "doge", "Dogecoin", some 5⟩] := by
    unfold sortByMcapDesc
    exact List.mergeSort_of_sorted (by decide)
  have hs3 : sortByMcapDesc
      [⟨"a", "A", "A", some 50⟩, ⟨"b", "B", "B", some 40⟩, ⟨"c", "C", "C", some 30⟩,
       ⟨"d", "D", "D", some 20⟩, ⟨"e", "E", "E", some 10⟩]
      = [⟨"a", "A", "A", some 50⟩, ⟨"b", "B", "B", some 40⟩, ⟨"c", "C", "C", some 30⟩,
         ⟨"d", "D", "D", some 20⟩, ⟨"e", "E", "E", some 10⟩] := by
    unfold sortByMcapDesc
    exact List.mergeSort_of_sorted (by decide)
  refine ⟨?_, ?_, ?_, ?_⟩
  · have h := (meme_mandatory_member_rule []
      [⟨"dogecoin", "doge", "Dogecoin", some 50⟩, ⟨"b", "B", "B", some 40⟩,
       ⟨"c", "C", "C", some 30⟩, ⟨"d", "D", "D", some 20⟩,
       ⟨"e", "E", "E", some 10⟩]).1 (by rw [hs1]; decide)
    rw [h.1, hs1]
    decide
  · rcases (meme_mandatory_member_rule []
      [⟨"a", "A", "A", some 50⟩, ⟨"b", "B", "B", some 40⟩, ⟨"c", "C", "C", some 30⟩,
       ⟨"d", "D", "D", some 20⟩, ⟨"e", "E", "E", some 10⟩,
       ⟨"dogecoin", "doge", "Dogecoin", some 5⟩]).2.1
      (by rw [hs2]; decide) (by rw [hs2]; decide) with ⟨r, hfind, _, heq⟩
    rw [hs2] at hfind
    have hr : r = ⟨"dogecoin", "doge", "Dogecoin", some 5⟩ := by
      have := hfind.symm.trans (by decide :
        ([⟨"a", "A", "A", some 50⟩, ⟨"b", "B", "B", some 40⟩, ⟨"c", "C", "C", some 30⟩,
          ⟨"d", "D", "D", some 20⟩, ⟨"e", "E", "E", some 10⟩,
          ⟨"dogecoin", "doge", "Dogecoin", some 5⟩] : List Coin).find?
            (fun c => c.id = "dogecoin")
          = some ⟨"dogecoin", "doge", "Dogecoin", some 5⟩)
      exact (Option.some.injEq _ _ ▸ this :)
    rw [heq, hs2, hr]
    decide
  · rcases (meme_mandatory_member_rule [⟨"dogecoin", "doge", "Dogecoin", some 5⟩]
      [⟨"a", "A", "A", some 50⟩, ⟨"b", "B", "B", some 40⟩, ⟨"c", "C", "C", some 30⟩,
       ⟨"d", "D", "D", some 20⟩, ⟨"e", "E", "E", some 10⟩]).2.2.1
      (by rw [hs3]; decide) (by decide) with ⟨r, _, _, hrmem, heq⟩
    have hr : r = ⟨"dogecoin", "doge", "Dogecoin", some 5⟩ := by
      simpa using hrmem
    rw [heq, hs3, hr]
    decide
  · have h := (meme_mandatory_member_rule []
      [⟨"a", "A", "A", some 50⟩, ⟨"b", "B", "B", some 40⟩, ⟨"c", "C", "C", some 30⟩,
       ⟨"d", "D", "D", some 20⟩, ⟨"e", "E", "E", some 10⟩]).2.2.2
      (by rw [hs3]; decide) (by decide)
    rw [h, hs3]
    decide

/-- Counterexample to C2 as stated.  First: with dogecoin absent from the
five-coin candidate list but present in the global snapshot, the group is
NOT built without it — it has 6 members including dogecoin (the claim says
the group is built without it, with exactly the top 5).  Second: with a
single-candidate list containing dogecoin (so dogecoin is within the ranked
top 5), the group has 1 member, not exactly 5. -/
theorem meme_mandatory_member_rule_counterexample :
    "dogecoin" ∉ ([⟨"a", "A", "A", some 50⟩, ⟨"b", "B", "B", some 40⟩,
        ⟨"c", "C", "C", some 30⟩, ⟨"d", "D", "D", some 20⟩,
        ⟨"e", "E", "E", some 10⟩] : List Coin).map Coin.id ∧
    (select_meme_rows [⟨"dogecoin", "doge", "Dogecoin", some 5⟩]
        [⟨"a", "A", "A", some 50⟩, ⟨"b", "B", "B", some 40⟩, ⟨"c", "C", "C", some 30⟩,
         ⟨"d", "D", "D", some 20⟩, ⟨"e", "E", "E", some 10⟩]).length = 6 ∧
    "dogecoin" ∈ (select_meme_rows [⟨"dogecoin", "doge", "Dogecoin", some 5⟩]
        [⟨"a", "A", "A", some 50⟩, ⟨"b", "B", "B", some 40⟩, ⟨"c", "C", "C", some 30⟩,
         ⟨"d", "D", "D", some 20⟩, ⟨"e", "E", "E", some 10⟩]).map Coin.id ∧
    "dogecoin" ∈ (([⟨"dogecoin", "doge", "Dogecoin", some 50⟩] : List Coin).take 5).map Coin.id ∧
    (select_meme_rows [] [⟨"dogecoin", "doge", "Dogecoin", some 50⟩]).length = 1 := by
  have hs3 : sortByMcapDesc
      [⟨"a", "A", "A", some 50⟩, ⟨"b", "B", "B", some 40⟩, ⟨"c", "C", "C", some 30⟩,
       ⟨"d", "D", "D", some 20⟩, ⟨"e", "E", "E", some 10⟩]
      = [⟨"a", "A", "A", some 50⟩, ⟨"b", "B", "B", some 40⟩, ⟨"c", "C", "C", some 30⟩,
         ⟨"d", "D", "D", some 20⟩, ⟨"e", "E", "E", some 10⟩] := by
    unfold sortByMcapDesc
    exact List.mergeSort_of_sorted (by decide)
  have hs4 : sortByMcapDesc [⟨"dogecoin", "doge", "Dogecoin", some 50⟩]
      = [⟨"dogecoin", "doge", "Dogecoin", some 50⟩] := by
    unfold sortByMcapDesc
    exact List.mergeSort_of_sorted (by decide)
  have h6 : select_meme_rows [⟨"dogecoin", "doge", "Dogecoin", some 5⟩]
      [⟨"a", "A", "A", some 50⟩, ⟨"b", "B", "B", some 40⟩, ⟨"c", "C", "C", some 30⟩,
       ⟨"d", "D", "D", some 20⟩, ⟨"e", "E", "E", some 10⟩]
      = [⟨"a", "A", "A", some 50⟩, ⟨"b", "B", "B", some 40⟩, ⟨"c", "C", "C", some 30⟩,
         ⟨"d", "D", "D", some 20⟩, ⟨"e", "E", "E", some 10⟩,
         ⟨"dogecoin", "doge", "Dogecoin", some 5⟩] := by
    simp only [select_meme_rows, hs3, markets_by_id_get]
    decide
  have h1 : select_meme_rows [] [⟨"dogecoin", "doge", "Dogecoin", some 50⟩]
      = [⟨"dogecoin", "doge", "Dogecoin", some 50⟩] := by
    simp only [select_meme_rows, hs4, markets_by_id_get]
    decide
  refine ⟨by decide, ?_, ?_, by decide, ?_⟩
  · rw [h6]
    decide
  · rw [h6]
    decide
  · rw [h1]
    decide

/-! The run status of `run_bulk_import`. -/

/-- C1 (amended): the recorded run status is `"success"` exactly when the
run's `errors` map is empty and `"partial_success"` exactly when it is not.
Only an exception escaping a per-asset ingestion transaction (e.g. a daily
fetch failure) is recorded in `errors`; an ingestion call that returns
normally — including one whose hourly step failed and was caught, reporting
`hourly_error` in its counts — leaves `errors` untouched, so a run whose only
failure is a caught hourly error reports `"success"`. -/
theorem run_status_success_iff_no_asset_errors
    (dailyRaw hourlyRaw : String → Int → Except String Payload) (now : Int)
    (assets : List Asset) (st0 : Store) (acc : Store × Summary) (asset : Asset)
    (st' : Store) (c : InsertCounts)
    (hok : bulk_insert_prices_and_update_last_observed
        (dailyRaw asset.coingecko_id) (hourlyRaw asset.coingecko_id)
        acc.1 asset.id
        (if should_run_daily (acc.1.last_daily asset.id) now then
          some (compute_daily_days_to_pull (acc.1.last_daily asset.id) now) else none)
        (if ENABLE_HOURLY && should_run_hourly (acc.1.last_hourly asset.id) now then
          some (compute_hourly_days_to_pull (acc.1.last_hourly asset.id) now) else none)
        = .ok (st', c)) :
    ((run_bulk_import dailyRaw hourlyRaw now assets st0).status = "success" ↔
      (run_bulk_import dailyRaw hourlyRaw now assets st0).summary.errors = []) ∧
    ((run_bulk_import dailyRaw hourlyRaw now assets st0).status = "partial_success" ↔
      (run_bulk_import dailyRaw hourlyRaw now assets st0).summary.errors ≠ []) ∧
    (process_asset dailyRaw hourlyRaw now acc asset).2.errors = acc.2.errors := by
  refine ⟨?_, ?_, ?_⟩
  · unfold run_bulk_import
    by_cases hs : assets.isEmpty
    · simp [hs]
    · simp only [hs, Bool.false_eq_true, if_false]
      by_cases he : (assets.foldl (process_asset dailyRaw hourlyRaw now)
          (st0, ⟨assets.length, [], []⟩)).2.errors.isEmpty
      · simp only [he, if_true]
        simpa using List.isEmpty_iff.mp he
      · simp only [he, Bool.false_eq_true, if_false]
        have hne : (assets.foldl (process_asset dailyRaw hourlyRaw now)
            (st0, ⟨assets.length, [], []⟩)).2.errors ≠ [] := by
          intro hh
          exact he (by simp [hh])
        constructor
        · intro h
          exact absurd h (by decide)
        · intro h
          exact absurd h hne
  · unfold run_bulk_import
    by_cases hs : assets.isEmpty
    · simp only [hs, if_true]
      constructor
      · intro h
        exact absurd h (by decide)
      · intro h
        exact absurd rfl h
    · simp only [hs, Bool.false_eq_true, if_false]
      by_cases he : (assets.foldl (process_asset dailyRaw hourlyRaw now)
          (st0, ⟨assets.length, [], []⟩)).2.errors.isEmpty
      · simp only [he, if_true]
        rw [List.isEmpty_iff.mp he]
        constructor
        · intro h
          exact absurd h (by decide)
        · intro h
          exact absurd rfl h
      · simp only [he, Bool.false_eq_true, if_false]
        have hne : (assets.foldl (process_asset dailyRaw hourlyRaw now)
            (st0, ⟨assets.length, [], []⟩)).2.errors ≠ [] := by
          intro hh
          exact he (by simp [hh])
        simpa using hne
  · simp only [process_asset]
    by_cases hskip : (!should_run_daily (acc.1.last_daily asset.id) now &&
        !(ENABLE_HOURLY && should_run_hourly (acc.1.last_hourly asset.id) now)) = true
    · simp only [hskip, if_true]
    · simp only [hskip, Bool.false_eq_true, if_false]
      rw [hok]

/-- Witness for C1 (amended): a concrete one-asset run whose hourly fetch
raises; the ingestion call returns normally carrying the hourly error, so the
errors map stays empty and the status iff instances hold. -/
theorem run_status_success_iff_no_asset_errors_witness :
    ((run_bulk_import (fun _ _ => .ok ⟨[(100, 1)], [(100, none)], [(100, none)]⟩)
        (fun _ _ => .error "boom") 0 [⟨1, "dogecoin", "DOGE", "Dogecoin"⟩]
        ⟨[], [], fun _ => none, fun _ => none⟩).status = "success" ↔
      (run_bulk_import (fun _ _ => .ok ⟨[(100, 1)], [(100, none)], [(100, none)]⟩)
        (fun _ _ => .error "boom") 0 [⟨1, "dogecoin", "DOGE", "Dogecoin"⟩]
        ⟨[], [], fun _ => none, fun _ => none⟩).summary.errors = []) ∧
    (process_asset (fun _ _ => .ok ⟨[(100, 1)], [(100, none)], [(100, none)]⟩)
        (fun _ _ => .error "boom") 0
        (⟨[], [], fun _ => none, fun _ => none⟩, ⟨1, [], []⟩)
        ⟨1, "dogecoin", "DOGE", "Dogecoin"⟩).2.errors = [] := by
  have e1 : parse_market_chart_to_rows ⟨[(100, 1)], [(100, none)], [(100, none)]⟩
      = [⟨100, 1, none, none⟩] := by
    unfold parse_market_chart_to_rows
    rw [List.mergeSort_of_sorted (by decide)]
    decide
  have e2 : daily_rows_of_payload ⟨[(100, 1)], [(100, none)], [(100, none)]⟩
      = [⟨100, 1, none, none⟩] := by
    unfold daily_rows_of_payload
    rw [e1, List.mergeSort_of_sorted (by decide)]
    decide
  have hfd : fetch_daily_series
      (fun _ => .ok ⟨[(100, 1)], [(100, none)], [(100, none)]⟩) 365
      = .ok [⟨100, 1, none, none⟩] := by
    simp only [fetch_daily_series, Except.map]
    rw [e2]
  have hfh : fetch_hourly_series
      (fun (_ : Int) => (.error "boom" : Except String Payload)) 90
      = .error "boom" := rfl
  have hb := bulk_insert_hourly_error_shape
    (fun _ => .ok ⟨[(100, 1)], [(100, none)], [(100, none)]⟩)
    (fun _ => .error "boom") ⟨[], [], fun _ => none, fun _ => none⟩ 1 365 90
    [⟨100, 1, none, none⟩] "boom" hfd (by decide) hfh
  have h := run_status_success_iff_no_asset_errors
    (fun _ _ => .ok ⟨[(100, 1)], [(100, none)], [(100, none)]⟩)
    (fun _ _ => .error "boom") 0 [⟨1, "dogecoin", "DOGE", "Dogecoin"⟩]
    ⟨[], [], fun _ => none, fun _ => none⟩
    (⟨[], [], fun _ => none, fun _ => none⟩, ⟨1, [], []⟩)
    ⟨1, "dogecoin", "DOGE", "Dogecoin"⟩ _ _ hb
  exact ⟨h.1, h.2.2⟩

/-- Counterexample to C1 as stated: a run over exactly one asset whose hourly
fetch raises (`hourly_error = "boom"` is recorded and its daily point is
committed) has an empty errors map and reports status `"success"`, not
`"partial_success"` as the claim requires — the caught hourly exception never
reaches `summary["errors"]`, and the status is computed from that map alone. -/
theorem run_status_counterexample :
    (run_bulk_import (fun _ _ => .ok ⟨[(100, 1)], [(100, none)], [(100, none)]⟩)
        (fun _ _ => .error "boom") 0 [⟨1, "dogecoin", "DOGE", "Dogecoin"⟩]
        ⟨[], [], fun _ => none, fun _ => none⟩).summary.per_asset_rows
      = [("dogecoin", ⟨1, 0, some "boom"⟩)] ∧
    (run_bulk_import (fun _ _ => .ok ⟨[(100, 1)], [(100, none)], [(100, none)]⟩)
        (fun _ _ => .error "boom") 0 [⟨1, "dogecoin", "DOGE", "Dogecoin"⟩]
        ⟨[], [], fun _ => none, fun _ => none⟩).store.daily_table
      = [⟨1, 100, VS_CURRENCY.toUpper, 1, none, none⟩] ∧
    (run_bulk_import (fun _ _ => .ok ⟨[(100, 1)], [(100, none)], [(100, none)]⟩)
        (fun _ _ => .error "boom") 0 [⟨1, "dogecoin", "DOGE", "Dogecoin"⟩]
        ⟨[], [], fun _ => none, fun _ => none⟩).summary.errors = [] ∧
    (run_bulk_import (fun _ _ => .ok ⟨[(100, 1)], [(100, none)], [(100, none)]⟩)
        (fun _ _ => .error "boom") 0 [⟨1, "dogecoin", "DOGE", "Dogecoin"⟩]
        ⟨[], [], fun _ => none, fun _ => none⟩).status = "success" ∧
    "success" ≠ "partial_success" := by
  have e1 : parse_market_chart_to_rows ⟨[(100, 1)], [(100, none)], [(100, none)]⟩
      = [⟨100, 1, none, none⟩] := by
    unfold parse_market_chart_to_rows
    rw [List.mergeSort_of_sorted (by decide)]
    decide
  have e2 : daily_rows_of_payload ⟨[(100, 1)], [(100, none)], [(100, none)]⟩
      = [⟨100, 1, none, none⟩] := by
    unfold daily_rows_of_payload
    rw [e1, List.mergeSort_of_sorted (by decide)]
    decide
  have hfd : fetch_daily_series
      (fun _ => .ok ⟨[(100, 1)], [(100, none)], [(100, none)]⟩) 365
      = .ok [⟨100, 1, none, none⟩] := by
    simp only [fetch_daily_series, Except.map]
    rw [e2]
  have hfh : fetch_hourly_series
      (fun (_ : Int) => (.error "boom" : Except String Payload)) 90
      = .error "boom" := rfl
  have hb := bulk_insert_hourly_error_shape
    (fun _ => .ok ⟨[(100, 1)], [(100, none)], [(100, none)]⟩)
    (fun _ => .error "boom") ⟨[], [], fun _ => none, fun _ => none⟩ 1 365 90
    [⟨100, 1, none, none⟩] "boom" hfd (by decide) hfh
  have hrun : run_bulk_import
      (fun _ _ => .ok ⟨[(100, 1)], [(100, none)], [(100, none)]⟩)
      (fun _ _ => .error "boom") 0 [⟨1, "dogecoin", "DOGE", "Dogecoin"⟩]
      ⟨[], [], fun _ => none, fun _ => none⟩
      = ⟨⟨[⟨1, 100, VS_CURRENCY.toUpper, 1, none, none⟩], [],
          fun a => if a = 1 then some 100 else none, fun _ => none⟩,
        ⟨1, [("dogecoin", ⟨1, 0, some "boom"⟩)], []⟩, "success"⟩ := by
    unfold run_bulk_import
    simp only [List.isEmpty_cons, Bool.false_eq_true, if_false, List.foldl_cons,
      List.foldl_nil]
    unfold process_asset
    simp only [should_run_daily, should_run_hourly, ENABLE_HOURLY,
      compute_daily_days_to_pull, compute_hourly_days_to_pull,
      compute_days_to_pull_generic, BULK_DAYS_BACK, HOURLY_MAX_DAYS_BACK,
      Bool.and_self, Bool.not_true, Bool.and_false, Bool.false_and,
      Bool.false_eq_true, if_false, if_true]
    rw [hb]
    rfl
  rw [hrun]
  refine ⟨rfl, rfl, rfl, rfl, by decide⟩

end CryptoETL
